import Mathlib

/-!
RS-docman: a citation processor

A shallow embedding of `src/main.cpp`, `src/citation.cpp` and `src/utils.hpp`.

* A `std::string` is a sequence of bytes: `Str := List Byte`, `Byte := Fin 256`.
* A function that ends the process with `std::exit(1)` after printing a
  diagnostic returns `Except.error` with the matching `Error` constructor.
-/

namespace Docman

/-- One `char` of a `std::string`, as its unsigned value. -/
abbrev Byte := Fin 256

/-- A `std::string`. -/
abbrev Str := List Byte

/-- The byte of a character literal of the source (all of them are ASCII). -/
def ch (c : Char) : Byte := Fin.ofNat c.toNat

/-- The bytes of a string literal of the source (all of them are ASCII). -/
def str (s : String) : Str := s.toList.map ch

deriving instance DecidableEq for Except

/-- The diagnostics after which the program calls `std::exit(1)`. -/
inductive Error where
  /-- "Error: Nested brackets detected" -/
  | nestedBrackets
  /-- "Error: Unmatched closing bracket" -/
  | unmatchedClosing
  /-- "Error: Unmatched opening bracket" -/
  | unmatchedOpening
  /-- "Error: Citation ID '<id>' not found" -/
  | idNotFound (id : Str)
  /-- `c->format()` on the null pointer that `citationMap[id]` inserts for an absent id. -/
  | nullCitation (id : Str)
  deriving DecidableEq, Repr

/-! ## `checkBrackets` (main.cpp 109-129) -/

/-- The `for (char c : input)` loop of `checkBrackets`, `level` being the local counter. -/
def checkBracketsLoop : Int → Str → Except Error Int
  | level, [] => .ok level
  | level, c :: rest =>
    if c = ch '[' then
      if level + 1 > 1 then .error .nestedBrackets
      else checkBracketsLoop (level + 1) rest
    else if c = ch ']' then
      if level - 1 < 0 then .error .unmatchedClosing
      else checkBracketsLoop (level - 1) rest
    else checkBracketsLoop level rest

/-- The function `checkBrackets`: returns normally or exits with a diagnostic. -/
def checkBrackets (input : Str) : Except Error Unit :=
  match checkBracketsLoop 0 input with
  | .error e => .error e
  | .ok level => if level ≠ 0 then .error .unmatchedOpening else .ok ()

/-! ## `std::unordered_map<std::string, T>` as used in main.cpp -/

/-- A `std::unordered_map<std::string, T>`, as the lookup it answers. -/
abbrev UMap (β : Type) := Str → Option β

/-- The default-constructed, empty map. -/
def UMap.empty {β : Type} : UMap β := fun _ => none

/-- The assignment `m[k] = v`: inserts the key or overwrites its value. -/
def UMap.set {β : Type} (m : UMap β) (k : Str) (v : β) : UMap β :=
  fun k' => if k' = k then some v else m k'

/-- The call `m.count(k)`: 1 when the key is present and 0 otherwise. -/
def UMap.count {β : Type} (m : UMap β) (k : Str) : Nat :=
  if (m k).isSome then 1 else 0

/-! ## The citation classes (citation.h, citation.cpp) -/

/-- The three concrete classes derived from `Citation`, with their members. -/
inductive Citation where
  | book (id author title publisher year : Str)
  | webpage (id title url : Str)
  | article (id author title journal : Str) (year volume issue : Int)
  deriving DecidableEq, Repr

/-- The accessor `Citation::id()`. -/
def Citation.id : Citation → Str
  | .book id _ _ _ _ => id
  | .webpage id _ _ => id
  | .article id _ _ _ _ _ _ => id

/-- What `operator<<` writes for an `int` on a stream with default flags:
plain decimal, with a leading minus sign for a negative value. -/
def decimal (n : Int) : Str :=
  if n < 0 then ch '-' :: (Nat.toDigits 10 n.natAbs).map ch
  else (Nat.toDigits 10 n.natAbs).map ch

/-- The virtual method `format()`, one equation per overriding class. -/
def Citation.format : Citation → Str
  | .book id author title publisher year =>
    str "[" ++ id ++ str "] book: " ++ author ++ str ", " ++ title ++ str ", " ++ publisher
      ++ str ", " ++ year
  | .webpage id title url =>
    str "[" ++ id ++ str "] webpage: " ++ title ++ str ". Available at " ++ url
  | .article id author title journal year volume issue =>
    str "[" ++ id ++ str "] article: " ++ author ++ str ", " ++ title ++ str ", " ++ journal
      ++ str ", " ++ decimal year ++ str ", " ++ decimal volume ++ str ", " ++ decimal issue

/-! ## `extractCitationIds` (main.cpp 131-151)

The pattern is the raw string `$$([^$$]+)\]`, compiled with the default flags
(ECMAScript, no `multiline`): an end-of-input assertion `$`, a second one, a
capture group holding a greedy `+` over the negated class `[^$$]` (any byte
other than the dollar sign), and an escaped closing bracket. -/

/-- The assertion `$`: without the `multiline` flag it holds only at the end of the input. -/
def atEnd (rest : Str) : Bool := rest.isEmpty

/-- The class `[^$$]`: every byte except the dollar sign. -/
def notDollar (c : Byte) : Bool := c != ch '$'

/-- The tail `([^$$]+)\]` of the pattern, matched at the head of `rest`: the
greedy `+` takes one byte of the class, then prefers to take more, and backtracks
to stop where the closing bracket follows. Returns the capture and the text after
the match. -/
def plusThenClose : Str → Option (Str × Str)
  | [] => none
  | c :: rest =>
    if notDollar c then
      match plusThenClose rest with
      | some (cap, after) => some (c :: cap, after)
      | none =>
        match rest with
        | d :: after => if d = ch ']' then some ([c], after) else none
        | [] => none
    else none

/-- The whole pattern matched at the head of `rest`. -/
def matchHere (rest : Str) : Option (Str × Str) :=
  if atEnd rest then
    if atEnd rest then plusThenClose rest else none
  else none

/-- The search `std::regex_search`: the match at the leftmost position that has one. -/
def regexSearch : Str → Option (Str × Str)
  | [] => matchHere []
  | c :: rest =>
    match matchHere (c :: rest) with
    | some r => some r
    | none => regexSearch rest

/-- The map `idMap` after the first loop of `extractCitationIds`. -/
def buildIdMap (citations : List Citation) : UMap Bool :=
  citations.foldl (fun m c => m.set c.id true) UMap.empty

/-- The `for (; it != end; ++it)` loop over the `std::sregex_iterator`: each
step searches the text after the previous match (every match of this pattern is
non-empty). `fuel` bounds the number of steps. -/
def extractLoop (idMap : UMap Bool) : Nat → Str → List Str → Except Error (List Str)
  | 0, _, ids => .ok ids
  | fuel + 1, rest, ids =>
    match regexSearch rest with
    | none => .ok ids
    | some (id, after) =>
      if idMap.count id = 0 then .error (.idNotFound id)
      else extractLoop idMap fuel after (ids ++ [id])

/-- The function `extractCitationIds`. A match consumes at least two bytes, so
`input.length + 1` steps exhaust the iterator. -/
def extractCitationIds (input : Str) (citations : List Citation) : Except Error (List Str) :=
  extractLoop (buildIdMap citations) (input.length + 1) input []

/-! ## `getOrderedIds` (main.cpp 153-156) -/

/-- The call `char_traits<char>::compare(a, b, min(a.size(), b.size()))`: the
sign of the first difference of the two strings, bytes compared unsigned. -/
def traitsCompare : Str → Str → Int
  | a :: as, b :: bs => if a < b then -1 else if b < a then 1 else traitsCompare as bs
  | _, _ => 0

/-- The method `std::string::compare`: the common prefix first, then the lengths. -/
def strCompare (a b : Str) : Int :=
  if traitsCompare a b ≠ 0 then traitsCompare a b else (a.length : Int) - (b.length : Int)

/-- The comparison `std::less<std::string>`, that is `operator<` of `std::string`. -/
def strLess (a b : Str) : Bool := strCompare a b < 0

/-- A `std::set<std::string>` is represented by the sequence that iterating it
from `begin()` to `end()` yields. `setInsert x s` is `s.insert(x)`: the key goes
to its place in the order, and is dropped when an equivalent key (neither less
than the other) is present. -/
def setInsert (x : Str) : List Str → List Str
  | [] => [x]
  | y :: ys =>
    if strLess x y then x :: y :: ys
    else if strLess y x then y :: setInsert x ys
    else y :: ys

/-- The function `getOrderedIds`: the range constructor of `std::set` inserts
the ids one by one, and the vector is filled by iterating the set. -/
def getOrderedIds (ids : List Str) : List Str :=
  ids.foldl (fun s x => setInsert x s) []

/-! ## `main` from the loaded catalog on (main.cpp 185-217) -/

/-- The map `citationMap` after the loop of lines 193-195. -/
def buildCitationMap (citations : List Citation) : UMap Citation :=
  citations.foldl (fun m c => m.set c.id c) UMap.empty

/-- The loop of lines 215-217 writing `c->format() << "\n"` to the stream whose
content so far is `out`; `none` is the null pointer `citationMap[id]` gives for
an absent id. -/
def printLoop : Str → List (Str × Option Citation) → Except Error Str
  | out, [] => .ok out
  | _, (id, none) :: _ => .error (.nullCitation id)
  | out, (_, some c) :: rest => printLoop (out ++ c.format ++ str "\n") rest

/-- Lines 190-217 of `main`: from the extracted ids to the text written to the
output stream. -/
def renderOutput (input : Str) (citations : List Citation) (extractedIds : List Str) :
    Except Error Str :=
  let orderedIds := getOrderedIds extractedIds
  let citationMap := buildCitationMap citations
  let printedCitations := orderedIds.map (fun id => (id, citationMap id))
  printLoop (input ++ str "\nReferences:\n") printedCitations

/-- Lines 187-217 of `main`: `citations` is the loaded catalog and `input` the
manuscript text; the result is the text written to the output stream. -/
def docmanMain (citations : List Citation) (input : Str) : Except Error Str :=
  match checkBrackets input with
  | .error e => .error e
  | .ok _ =>
    match extractCitationIds input citations with
    | .error e => .error e
    | .ok extractedIds => renderOutput input citations extractedIds

/-! ## `encodeUriComponent` (utils.hpp 12-30) -/

/-- The call `isalnum(c)` in the "C" locale, the one in force since the program
never calls `setlocale`: the ASCII digits and letters, and no byte above 0x7F. -/
def isalnum (c : Byte) : Bool :=
  (ch '0' ≤ c && c ≤ ch '9') || (ch 'A' ≤ c && c ≤ ch 'Z') || (ch 'a' ≤ c && c ≤ ch 'z')

/-- What `operator<<` writes for a non-negative `int` under `std::hex` and
`std::uppercase`, before padding: its hexadecimal digits, letters in upper case. -/
def hexUpper (n : Nat) : Str := (Nat.toDigits 16 n).map (fun d => ch d.toUpper)

/-- Padding to the field width `w` with the fill character, the output being
right-adjusted (the default `adjustfield`). -/
def padLeft (w : Nat) (fill : Byte) (s : Str) : Str := List.replicate (w - s.length) fill ++ s

/-- What one pass of the loop body writes to the stream `encoded` for the byte
`c`: `fill('0')` and `std::hex` were set before the loop, `std::setw(2)` holds
for the integer that follows it only. -/
def encodeByte (c : Byte) : Str :=
  if isalnum c || c = ch '-' || c = ch '_' || c = ch '.' || c = ch '~' then [c]
  else if c = ch ' ' then [ch '+']
  else ch '%' :: padLeft 2 (ch '0') (hexUpper c.val)

/-- The function `encodeUriComponent`: the content of the stream `encoded` after the loop. -/
def encodeUriComponent (s : Str) : Str :=
  s.foldl (fun encoded c => encoded ++ encodeByte c) []

/-! ## Specification vocabulary for the bracket rules -/

/-- The number of `[` minus the number of `]` in a text. -/
def depth (s : Str) : Int := (s.count (ch '[') : Int) - (s.count (ch ']') : Int)

/-- The change of the bracket depth that one byte makes. -/
def delta (c : Byte) : Int :=
  if c = ch '[' then 1 else if c = ch ']' then -1 else 0

/-- With the level at `l`, every prefix of `s` keeps the level within 0 and 1. -/
def Within (l : Int) (s : Str) : Prop := ∀ p, p <+: s → 0 ≤ l + depth p ∧ l + depth p ≤ 1

/-- The bracket depth is 0 or 1 after every byte of the text. -/
def Flat (s : Str) : Prop := ∀ k, depth (s.take k) = 0 ∨ depth (s.take k) = 1

/-! ## Specification vocabulary for the References section -/

/-- The catalog citation of an id: the citation of the catalog that carries it. -/
def catalogCitation (catalog : List Citation) (id : Str) : Option Citation :=
  catalog.find? (fun c => c.id = id)

/-- The `format()` output of the catalog citation of each id of `order`, in
that order, each one ended by a newline. -/
def referenceLines (catalog : List Citation) (order : List Str) : Str :=
  ((order.filterMap (catalogCitation catalog)).map (fun c => c.format ++ str "\n")).flatten

/-- The last citation of the catalog that carries the id: the one that
`citationMap` keeps when several citations share an id. -/
def lastCitation : List Citation → Str → Option Citation
  | [], _ => none
  | c :: rest, id =>
    match lastCitation rest id with
    | some d => some d
    | none => if c.id = id then some c else none

/-- The text `r` is the manuscript, the heading, and one reference line for each
distinct id of `ids`, the lines in the strictly ascending byte-wise
lexicographic order of their ids, each the `format()` output of the last
citation of the catalog that carries the id. -/
def ListsInLexOrder (catalog : List Citation) (ids : List Str) (input : Str)
    (r : Except Error Str) : Prop :=
  ∃ (order : List Str) (cs : List Citation),
    r = .ok (input ++ str "\nReferences:\n" ++
      (cs.map (fun c => c.format ++ str "\n")).flatten) ∧
    cs.map Citation.id = order ∧
    (∀ c, c ∈ cs → lastCitation catalog c.id = some c) ∧
    order.Pairwise (List.Lex (· < ·)) ∧ order.Nodup ∧ (∀ z, z ∈ order ↔ z ∈ ids)

/-- A catalog in which two citations carry the id a. -/
def sampleRepeatedCatalog : List Citation :=
  [.book (str "a") (str "FIRST") (str "T") (str "P") (str "2020"),
   .webpage (str "b") (str "Home") (str "http://b.example"),
   .book (str "a") (str "LAST") (str "T") (str "P") (str "2021")]

/-- The distinct ids of a marker sequence in the order of their first appearance. -/
def firstAppearance : List Str → List Str
  | [] => []
  | x :: rest => x :: (firstAppearance rest).filter (fun y => y ≠ x)

/-- The scan behind `bracketedSpans`: `cur` is the content read so far of the
span that is open, if one is. -/
def bracketedSpansFrom : Option Str → Str → List Str
  | _, [] => []
  | none, c :: rest =>
    if c = ch '[' then bracketedSpansFrom (some []) rest else bracketedSpansFrom none rest
  | some cur, c :: rest =>
    if c = ch ']' then cur :: bracketedSpansFrom none rest
    else bracketedSpansFrom (some (cur ++ [c])) rest

/-- The marker sequence of the specification: the contents of the spans
`[content]` of a text with flat brackets, left to right, repeats kept. -/
def bracketedSpans (input : Str) : List Str := bracketedSpansFrom none input

/-- A catalog with one citation of each kind, under the ids a, b and c. -/
def sampleCatalog : List Citation :=
  [.book (str "a") (str "A") (str "T") (str "P") (str "2020"),
   .webpage (str "b") (str "Home") (str "http://b.example"),
   .article (str "c") (str "C") (str "U") (str "J") 1999 7 2]

/-! ## Specification vocabulary for the percent-encoding -/

/-- The uppercase hexadecimal digit of a value below 16. -/
def hexDigitUpper (d : Nat) : Byte :=
  if d < 10 then Fin.ofNat (48 + d) else Fin.ofNat (65 + (d - 10))

/-- The percent-encoding rule of the specification for one byte: unreserved
bytes pass, a space becomes a plus sign, any other byte becomes a percent sign
and its two uppercase hexadecimal digits. -/
def percentEncodeByte (c : Byte) : Str :=
  if (48 ≤ c.val ∧ c.val ≤ 57) ∨ (65 ≤ c.val ∧ c.val ≤ 90) ∨ (97 ≤ c.val ∧ c.val ≤ 122) ∨
      c.val = 45 ∨ c.val = 95 ∨ c.val = 46 ∨ c.val = 126 then [c]
  else if c.val = 32 then [43]
  else [37, hexDigitUpper (c.val / 16), hexDigitUpper (c.val % 16)]

/-! ## Specification vocabulary for the decimal numerals -/

/-- The decimal numeral of a natural number: the digit 0 for zero, and otherwise
its decimal digits from the most significant one, without padding or grouping. -/
def decimalDigits (n : Nat) : Str :=
  if n = 0 then [48] else (Nat.digits 10 n).reverse.map (fun d => Fin.ofNat (48 + d))

/-- The plain decimal numeral of an integer: a minus sign before the numeral of
the absolute value when the integer is negative. -/
def plainDecimal (n : Int) : Str :=
  if n < 0 then 45 :: decimalDigits n.natAbs else decimalDigits n.natAbs

/-! ## Vocabulary for reading a percent-encoding back -/

/-- The value of an uppercase hexadecimal digit. -/
def hexValue (b : Byte) : Nat :=
  if b.val < 58 then b.val - 48 else b.val - 55

/-! ## `nlohmann::json` and the HTTP client, as `loadCitations` uses them -/

/-- A value of `nlohmann::json`. `int` stands for the two integer kinds
(`number_integer` and `number_unsigned`), `float` holds the value of the finite
`double` of a `number_float`, and an object holds one member per key. -/
inductive Json where
  | null
  | bool (b : Bool)
  | int (n : Int)
  | float (q : ℚ)
  | string (s : Str)
  | array (items : List Json)
  | object (members : List (Str × Json))

/-- The member of an object's member list under a key. -/
def lookupMember (key : Str) : List (Str × Json) → Option Json
  | [] => none
  | (k, v) :: rest => if k = key then some v else lookupMember key rest

/-- The member under `key` when the value is an object that has one. -/
def Json.find (j : Json) (key : Str) : Option Json :=
  match j with
  | .object members => lookupMember key members
  | _ => none

/-- The call `j.contains(key)`: false for every value that is not an object. -/
def Json.contains (j : Json) (key : Str) : Bool := (j.find key).isSome

/-- The access `j[key]` of the source where `contains(key)` has been checked. -/
def Json.at (j : Json) (key : Str) : Json := (j.find key).getD .null

/-- The call `j.is_string()`. -/
def Json.isString : Json → Bool
  | .string _ => true
  | _ => false

/-- The call `j.is_array()`. -/
def Json.isArray : Json → Bool
  | .array _ => true
  | _ => false

/-- The elements that a range-based `for` over the value visits; the source
iterates an array only. -/
def Json.items : Json → List Json
  | .array items => items
  | _ => []

/-- The comparison `j == n` with an integer literal: numbers compare by value
(the literal converted to `double` against a `number_float`), and a value of any
other kind is unequal to a number. -/
def Json.equalsInt (j : Json) (n : Int) : Bool :=
  match j with
  | .int m => decide (m = n)
  | .float q => decide (q = (n : ℚ))
  | _ => false

/-- The ways `loadCitations` ends without a catalog: the diagnostics followed by
`std::exit(1)`, and the two exceptions of `nlohmann::json` that nothing catches. -/
inductive LoadError where
  /-- "Error: Invalid version in citations file" -/
  | invalidVersion
  /-- "Error: Missing or invalid citations array" -/
  | invalidCitationsArray
  /-- "Error: Invalid citation entry" -/
  | invalidEntry
  /-- "Error: Book citation missing ISBN" -/
  | bookMissingIsbn
  /-- "Error: Failed to fetch book info for ISBN: <isbn>" -/
  | bookFetchFailed (isbn : Str)
  /-- "Error: Webpage citation missing URL" -/
  | webpageMissingUrl
  /-- "Error: Failed to fetch webpage title for URL: <url>" -/
  | webpageFetchFailed (url : Str)
  /-- "Error: Incomplete article citation" -/
  | incompleteArticle
  /-- "Error: Unknown citation type: <type>" -/
  | unknownType (type : Str)
  /-- An uncaught `json::parse_error`, thrown by `json::parse` on a response body. -/
  | jsonParseError
  /-- An uncaught `json::type_error`, thrown by a conversion or by `operator[]`. -/
  | jsonTypeError
  deriving DecidableEq, Repr

/-- The conversion `j.get<std::string>()`, also the implicit one to a
`std::string` parameter: it throws unless the value is a string. -/
def Json.getString : Json → Except LoadError Str
  | .string s => .ok s
  | _ => .error .jsonTypeError

/-- The conversion `static_cast<int>` of a 64-bit integer: reduction modulo 2^32. -/
def toInt32 (n : Int) : Int := (n + 2147483648) % 4294967296 - 2147483648

/-- The conversion `j.get<int>()`: the library casts the stored value of either
integer kind, of a `number_float` (truncating toward zero) and of a boolean, and
throws for every other kind. -/
def Json.getInt : Json → Except LoadError Int
  | .int n => .ok (toInt32 n)
  | .float q => .ok (toInt32 (Int.tdiv q.num q.den))
  | .bool b => .ok (if b then 1 else 0)
  | _ => .error .jsonTypeError

/-- The access `j[key]` on the non-const value parsed from a response: a null
value turns into an object, an absent key is inserted with a null member, and a
value of any other kind throws. -/
def Json.member (j : Json) (key : Str) : Except LoadError Json :=
  match j with
  | .null => .ok .null
  | .object members => .ok ((lookupMember key members).getD .null)
  | _ => .error .jsonTypeError

/-- What the HTTP client reads of a response. -/
structure Response where
  status : Int
  body : Str

/-- The external service behind `cli.Get(path)`: `none` when no response comes
back (`!res`). -/
abbrev Service := Str → Option Response

/-! ## `loadCitations` from the parsed document on (main.cpp 31-106)

`parse` stands for `nlohmann::json::parse`, with `none` for a thrown
`parse_error`. Each function returns the request paths it issued together with
its outcome. -/

/-- The arguments of `new BookCitation(...)` at line 66, read from the parsed
response. -/
def bookFromInfo (id : Str) (info : Json) : Except LoadError Citation := do
  let author ← (← info.member (str "author")).getString
  let title ← (← info.member (str "title")).getString
  let publisher ← (← info.member (str "publisher")).getString
  let year ← (← info.member (str "year")).getString
  pure (.book id author title publisher year)

/-- The arguments of `new WebpageCitation(...)` at line 82. -/
def webpageFromInfo (id url : Str) (info : Json) : Except LoadError Citation := do
  let title ← (← info.member (str "title")).getString
  pure (.webpage id title url)

/-- Lines 91-97: the conversions of the article fields and the construction. -/
def articleFromEntry (id : Str) (entry : Json) : Except LoadError Citation := do
  let title ← (entry.at (str "title")).getString
  let author ← (entry.at (str "author")).getString
  let journal ← (entry.at (str "journal")).getString
  let year ← (entry.at (str "year")).getInt
  let volume ← (entry.at (str "volume")).getInt
  let issue ← (entry.at (str "issue")).getInt
  pure (.article id author title journal year volume issue)

/-- Lines 60-66 and 76-82: the request for `path`, the status check, the parse
of the body and the construction by `build`; `failed` is the diagnostic of the
status check. -/
def fetchAndBuild (parse : Str → Option Json) (get : Service) (path : Str)
    (failed : LoadError) (build : Json → Except LoadError Citation) :
    Except LoadError Citation :=
  match get path with
  | none => .error failed
  | some res =>
    if res.status ≠ 200 then .error failed
    else
      match parse res.body with
      | none => .error .jsonParseError
      | some info => build info

/-- One pass of the loop body of lines 44-104 for `entry`: the request paths it
issues, and the citation it pushes or the error it ends with. -/
def loadEntry (parse : Str → Option Json) (get : Service) (entry : Json) :
    List Str × Except LoadError Citation :=
  if !entry.contains (str "id") || !(entry.at (str "id")).isString ||
      !entry.contains (str "type") || !(entry.at (str "type")).isString then
    ([], .error .invalidEntry)
  else
    match (entry.at (str "id")).getString, (entry.at (str "type")).getString with
    | .ok id, .ok type =>
      if type = str "book" then
        if !entry.contains (str "isbn") || !(entry.at (str "isbn")).isString then
          ([], .error .bookMissingIsbn)
        else
          match (entry.at (str "isbn")).getString with
          | .ok isbn =>
            ([str "/isbn/" ++ encodeUriComponent isbn],
              fetchAndBuild parse get (str "/isbn/" ++ encodeUriComponent isbn)
                (.bookFetchFailed isbn) (bookFromInfo id))
          | .error e => ([], .error e)
      else if type = str "webpage" then
        if !entry.contains (str "url") || !(entry.at (str "url")).isString then
          ([], .error .webpageMissingUrl)
        else
          match (entry.at (str "url")).getString with
          | .ok url =>
            ([str "/title/" ++ encodeUriComponent url],
              fetchAndBuild parse get (str "/title/" ++ encodeUriComponent url)
                (.webpageFetchFailed url) (webpageFromInfo id url))
          | .error e => ([], .error e)
      else if type = str "article" then
        if !entry.contains (str "title") || !entry.contains (str "author") ||
            !entry.contains (str "journal") || !entry.contains (str "year") ||
            !entry.contains (str "volume") || !entry.contains (str "issue") then
          ([], .error .incompleteArticle)
        else ([], articleFromEntry id entry)
      else ([], .error (.unknownType type))
    | .error e, _ => ([], .error e)
    | _, .error e => ([], .error e)

/-- The loop of lines 44-104 over the entries still to visit; `citations` is
the vector built so far and `requests` the paths requested so far. -/
def loadLoop (parse : Str → Option Json) (get : Service) :
    List Json → List Citation → List Str → List Str × Except LoadError (List Citation)
  | [], citations, requests => (requests, .ok citations)
  | entry :: rest, citations, requests =>
    match loadEntry parse get entry with
    | (issued, .error e) => (requests ++ issued, .error e)
    | (issued, .ok c) => loadLoop parse get rest (citations ++ [c]) (requests ++ issued)

/-- The function `loadCitations` from line 31 on, `data` being the parsed
catalog document: the request paths issued, and the catalog or the error. -/
def loadCitations (parse : Str → Option Json) (get : Service) (data : Json) :
    List Str × Except LoadError (List Citation) :=
  if !data.contains (str "version") || !(data.at (str "version")).equalsInt 1 then
    ([], .error .invalidVersion)
  else if !data.contains (str "citations") || !(data.at (str "citations")).isArray then
    ([], .error .invalidCitationsArray)
  else loadLoop parse get (data.at (str "citations")).items [] []

/-! ## Sample service, parser and documents -/

/-- The body of the sample answer to an isbn lookup. -/
def sampleBookBody : Str :=
  str "\x7b\"author\":\"A\",\"title\":\"T\",\"publisher\":\"P\",\"year\":\"2020\"\x7d"

/-- The body of the sample answer to a title lookup. -/
def sampleTitleBody : Str := str "\x7b\"title\":\"Home\"\x7d"

/-- The result of `json::parse` on the two sample bodies; any other text is
taken as malformed. -/
def sampleParse (body : Str) : Option Json :=
  if body = sampleBookBody then
    some (.object [(str "author", .string (str "A")), (str "title", .string (str "T")),
      (str "publisher", .string (str "P")), (str "year", .string (str "2020"))])
  else if body = sampleTitleBody then some (.object [(str "title", .string (str "Home"))])
  else none

/-- A service that knows one isbn and one url. -/
def sampleService : Service := fun path =>
  if path = str "/isbn/978-0" then some ⟨200, sampleBookBody⟩
  else if path = str "/title/http%3A%2F%2Fb.example" then some ⟨200, sampleTitleBody⟩
  else if path = str "/isbn/404" then some ⟨404, []⟩
  else none

/-- A book entry with the isbn the sample service knows. -/
def sampleBookEntry : Json :=
  .object [(str "id", .string (str "a")), (str "type", .string (str "book")),
    (str "isbn", .string (str "978-0"))]

/-- A webpage entry with the url the sample service knows. -/
def sampleWebpageEntry : Json :=
  .object [(str "id", .string (str "b")), (str "type", .string (str "webpage")),
    (str "url", .string (str "http://b.example"))]

/-- An article entry with all six fields, of the given id. -/
def sampleArticleEntry (id : Str) : Json :=
  .object [(str "id", .string id), (str "type", .string (str "article")),
    (str "title", .string (str "U")), (str "author", .string (str "C")),
    (str "journal", .string (str "J")), (str "year", .int 1999), (str "volume", .int 7),
    (str "issue", .int 2)]

/-- A catalog document of version 1 with the given entries. -/
def documentOf (entries : List Json) : Json :=
  .object [(str "version", .int 1), (str "citations", .array entries)]

/-- A book entry that gives its descriptive fields and carries no isbn. -/
def sampleDirectBookEntry : Json :=
  .object [(str "id", .string (str "a")), (str "type", .string (str "book")),
    (str "author", .string (str "Z")), (str "title", .string (str "Y")),
    (str "publisher", .string (str "X")), (str "year", .string (str "1900"))]

/-- A book entry that gives its descriptive fields and carries an isbn as well. -/
def sampleDirectBookWithIsbn : Json :=
  .object [(str "id", .string (str "a")), (str "type", .string (str "book")),
    (str "author", .string (str "Z")), (str "title", .string (str "Y")),
    (str "publisher", .string (str "X")), (str "year", .string (str "1900")),
    (str "isbn", .string (str "978-0"))]

/-- An article entry whose year is the boolean `true`. -/
def sampleBoolYearEntry : Json :=
  .object [(str "id", .string (str "x")), (str "type", .string (str "article")),
    (str "title", .string (str "U")), (str "author", .string (str "C")),
    (str "journal", .string (str "J")), (str "year", .bool true), (str "volume", .int 7),
    (str "issue", .int 2)]

/-- An entry of a type that the loader does not know. -/
def sampleMysteryEntry : Json :=
  .object [(str "id", .string (str "m")), (str "type", .string (str "mystery")),
    (str "isbn", .string (str "978-0")), (str "url", .string (str "http://b.example"))]

/-- A book entry whose isbn the sample service answers with status 404. -/
def sampleUnknownBookEntry : Json :=
  .object [(str "id", .string (str "n")), (str "type", .string (str "book")),
    (str "isbn", .string (str "404"))]

/-! ## Specification vocabulary for the catalog loader -/

/-- The value is a JSON object with a string member under each of the keys. -/
def HasStringMembers (info : Json) (keys : List Str) : Prop :=
  ∀ k, k ∈ keys → ∃ s, info.find k = some (.string s)

/-- The answer of the service to `path` is absent, has a status other than 200,
or has a body that is not JSON with a string member under each of `keys`. -/
def AnswerFails (parse : Str → Option Json) (get : Service) (path : Str)
    (keys : List Str) : Prop :=
  get path = none ∨
  ∃ res, get path = some res ∧
    (res.status ≠ 200 ∨ parse res.body = none ∨
      ∃ info, parse res.body = some info ∧ ¬ HasStringMembers info keys)

/-- The value is the number 1. -/
def IsNumberOne (v : Json) : Prop := v = .int 1 ∨ v = .float 1

/-! ## Theorems -/

theorem depth_nil : depth [] = 0 := by simp [depth]

theorem depth_cons (c : Byte) (s : Str) : depth (c :: s) = delta c + depth s := by
  unfold depth delta
  by_cases h1 : c = ch '['
  · subst h1
    have : ch '[' ≠ ch ']' := by decide
    simp [List.count_cons, this]
    ring
  · by_cases h2 : c = ch ']'
    · subst h2
      simp [List.count_cons, h1]
      ring
    · simp [List.count_cons, h1, h2]

theorem forall_prefix_cons (c : Byte) (s : Str) (P : Str → Prop) :
    (∀ p, p <+: c :: s → P p) ↔ P [] ∧ ∀ p, p <+: s → P (c :: p) := by
  constructor
  · intro h
    exact ⟨h [] (List.nil_prefix), fun p hp => h (c :: p) ((List.cons_prefix_cons).2 ⟨rfl, hp⟩)⟩
  · rintro ⟨h0, h1⟩ p hp
    rcases List.prefix_cons_iff.1 hp with rfl | ⟨t, rfl, ht⟩
    · exact h0
    · exact h1 t ht

/-- One step of the loop, in terms of the change of level the byte makes. -/
theorem checkBracketsLoop_cons (l : Int) (c : Byte) (t : Str) (h0 : 0 ≤ l) (h1 : l ≤ 1) :
    checkBracketsLoop l (c :: t) =
      if 1 < l + delta c then .error .nestedBrackets
      else if l + delta c < 0 then .error .unmatchedClosing
      else checkBracketsLoop (l + delta c) t := by
  unfold delta
  rw [checkBracketsLoop]
  by_cases hc1 : c = ch '['
  · simp only [if_pos hc1]
    split_ifs <;> first | rfl | (exfalso; omega)
  · simp only [if_neg hc1]
    by_cases hc2 : c = ch ']'
    · simp only [if_pos hc2, Int.sub_eq_add_neg]
      split_ifs <;> first | rfl | (exfalso; omega)
    · simp only [if_neg hc2, add_zero]
      split_ifs <;> first | rfl | (exfalso; omega)

/-- The loop returns normally exactly when the running level stays within 0 and 1. -/
theorem checkBracketsLoop_ok (s : Str) : ∀ (l r : Int), 0 ≤ l → l ≤ 1 →
    (checkBracketsLoop l s = .ok r ↔
      (∀ p, p <+: s → 0 ≤ l + depth p ∧ l + depth p ≤ 1) ∧ r = l + depth s) := by
  induction s with
  | nil =>
    intro l r h0 h1
    simp [checkBracketsLoop, depth_nil, h0, h1, eq_comm]
  | cons c t ih =>
    intro l r h0 h1
    rw [forall_prefix_cons, checkBracketsLoop_cons l c t h0 h1]
    simp only [depth_cons, depth_nil]
    by_cases hn : 1 < l + delta c
    · rw [if_pos hn]
      constructor
      · intro h; cases h
      · rintro ⟨⟨_, h⟩, _⟩
        have := (h [] List.nil_prefix).2
        rw [depth_nil] at this
        omega
    · rw [if_neg hn]
      by_cases hm : l + delta c < 0
      · rw [if_pos hm]
        constructor
        · intro h; cases h
        · rintro ⟨⟨_, h⟩, _⟩
          have := (h [] List.nil_prefix).1
          rw [depth_nil] at this
          omega
      · rw [if_neg hm, ih (l + delta c) r (by omega) (by omega)]
        constructor
        · rintro ⟨h, hr⟩
          refine ⟨⟨⟨by omega, by omega⟩, fun p hp => ?_⟩, by omega⟩
          have := h p hp
          omega
        · rintro ⟨⟨_, h⟩, hr⟩
          refine ⟨fun p hp => ?_, by omega⟩
          have := h p hp
          omega

theorem within_cons (l : Int) (c : Byte) (s : Str) :
    Within l (c :: s) ↔ (0 ≤ l ∧ l ≤ 1) ∧ Within (l + delta c) s := by
  unfold Within
  rw [forall_prefix_cons]
  simp only [depth_cons, depth_nil, add_zero, add_assoc]

theorem within_bounds {l : Int} {s : Str} (h : Within l s) : 0 ≤ l ∧ l ≤ 1 := by
  have := h [] List.nil_prefix
  simpa [depth_nil] using this

/-- An opening bracket met at level 1 makes the loop exit with the nested-bracket error. -/
theorem checkBracketsLoop_nested (post : Str) (pre : Str) : ∀ l : Int, Within l pre →
    l + depth pre = 1 →
    checkBracketsLoop l (pre ++ ch '[' :: post) = .error .nestedBrackets := by
  induction pre with
  | nil =>
    intro l hw hl
    have hb := within_bounds hw
    rw [List.nil_append, checkBracketsLoop_cons l _ _ hb.1 hb.2]
    rw [depth_nil] at hl
    have hd : delta (ch '[') = 1 := by decide
    rw [if_pos (by omega)]
  | cons c t ih =>
    intro l hw hl
    have hb := within_bounds hw
    rw [within_cons] at hw
    have hs := within_bounds hw.2
    rw [depth_cons] at hl
    rw [List.cons_append, checkBracketsLoop_cons l _ _ hb.1 hb.2, if_neg (by omega),
      if_neg (by omega)]
    exact ih (l + delta c) hw.2 (by omega)

/-- A closing bracket met at level 0 makes the loop exit with the unmatched-closing error. -/
theorem checkBracketsLoop_closing (post : Str) (pre : Str) : ∀ l : Int, Within l pre →
    l + depth pre = 0 →
    checkBracketsLoop l (pre ++ ch ']' :: post) = .error .unmatchedClosing := by
  induction pre with
  | nil =>
    intro l hw hl
    have hb := within_bounds hw
    rw [List.nil_append, checkBracketsLoop_cons l _ _ hb.1 hb.2]
    rw [depth_nil] at hl
    have hd : delta (ch ']') = -1 := by decide
    rw [if_neg (by omega), if_pos (by omega)]
  | cons c t ih =>
    intro l hw hl
    have hb := within_bounds hw
    rw [within_cons] at hw
    have hs := within_bounds hw.2
    rw [depth_cons] at hl
    rw [List.cons_append, checkBracketsLoop_cons l _ _ hb.1 hb.2, if_neg (by omega),
      if_neg (by omega)]
    exact ih (l + delta c) hw.2 (by omega)

theorem delta_cases (c : Byte) :
    (c = ch '[' ∧ delta c = 1) ∨ (c = ch ']' ∧ delta c = -1) ∨ delta c = 0 := by
  unfold delta
  by_cases h1 : c = ch '['
  · exact Or.inl ⟨h1, by rw [if_pos h1]⟩
  · by_cases h2 : c = ch ']'
    · exact Or.inr (Or.inl ⟨h2, by rw [if_neg h1, if_pos h2]⟩)
    · exact Or.inr (Or.inr (by rw [if_neg h1, if_neg h2]))

/-- Every error exit of the loop is one of the two bracket errors, at the first
byte that takes the level out of the range. -/
theorem checkBracketsLoop_error (s : Str) : ∀ (l : Int) (e : Error), 0 ≤ l → l ≤ 1 →
    checkBracketsLoop l s = .error e →
    (e = .nestedBrackets ∧ ∃ pre post, s = pre ++ ch '[' :: post ∧ Within l pre ∧
        l + depth pre = 1) ∨
    (e = .unmatchedClosing ∧ ∃ pre post, s = pre ++ ch ']' :: post ∧ Within l pre ∧
        l + depth pre = 0) := by
  induction s with
  | nil =>
    intro l e h0 h1 h
    simp [checkBracketsLoop] at h
  | cons c t ih =>
    intro l e h0 h1 h
    have hnil : Within l [] := by
      intro p hp
      rw [List.prefix_nil.1 hp, depth_nil]
      omega
    rw [checkBracketsLoop_cons l c t h0 h1] at h
    by_cases hn : 1 < l + delta c
    · rw [if_pos hn] at h
      rcases delta_cases c with ⟨hc, hd⟩ | ⟨hc, hd⟩ | hd
      · refine Or.inl ⟨by cases h; rfl, [], t, by simp [hc], hnil, ?_⟩
        rw [depth_nil]; omega
      · omega
      · omega
    · rw [if_neg hn] at h
      by_cases hm : l + delta c < 0
      · rw [if_pos hm] at h
        rcases delta_cases c with ⟨hc, hd⟩ | ⟨hc, hd⟩ | hd
        · omega
        · refine Or.inr ⟨by cases h; rfl, [], t, by simp [hc], hnil, ?_⟩
          rw [depth_nil]; omega
        · omega
      · rw [if_neg hm] at h
        have hw : ∀ pre, Within (l + delta c) pre → Within l (c :: pre) := fun pre hp =>
          (within_cons l c pre).2 ⟨⟨h0, h1⟩, hp⟩
        rcases ih (l + delta c) e (by omega) (by omega) h with
          ⟨he, pre, post, hs, hp, hl⟩ | ⟨he, pre, post, hs, hp, hl⟩
        · refine Or.inl ⟨he, c :: pre, post, by simp [hs], hw pre hp, ?_⟩
          rw [depth_cons]; omega
        · refine Or.inr ⟨he, c :: pre, post, by simp [hs], hw pre hp, ?_⟩
          rw [depth_cons]; omega

theorem flat_iff_within (s : Str) : Flat s ↔ Within 0 s := by
  unfold Flat Within
  constructor
  · intro h p hp
    rw [List.prefix_iff_eq_take] at hp
    have := h p.length
    rw [← hp] at this
    omega
  · intro h k
    have := h (s.take k) (List.take_prefix k s)
    omega

theorem checkBrackets_ok_iff (input : Str) :
    checkBrackets input = .ok () ↔ Flat input ∧ depth input = 0 := by
  rw [flat_iff_within]
  unfold checkBrackets
  cases hloop : checkBracketsLoop 0 input with
  | error e =>
    simp only [false_iff, reduceCtorEq]
    intro h
    have := (checkBracketsLoop_ok input 0 (depth input) (by omega) (by omega)).2
      ⟨h.1, by omega⟩
    rw [hloop] at this
    cases this
  | ok r =>
    have h := (checkBracketsLoop_ok input 0 r (by omega) (by omega)).1 hloop
    by_cases hr : r = 0
    · simp only [hr, ne_eq, not_true_eq_false, if_false, true_iff]
      exact ⟨h.1, by omega⟩
    · simp only [ne_eq, hr, not_false_eq_true, if_true, false_iff, reduceCtorEq]
      intro h2
      omega

theorem checkBrackets_nested_iff (input : Str) :
    checkBrackets input = .error .nestedBrackets ↔
      ∃ pre post, input = pre ++ ch '[' :: post ∧ Flat pre ∧ depth pre = 1 := by
  constructor
  · intro h
    unfold checkBrackets at h
    cases hloop : checkBracketsLoop 0 input with
    | error e =>
      rw [hloop] at h
      cases h
      rcases checkBracketsLoop_error input 0 _ (by omega) (by omega) hloop with
        ⟨_, pre, post, hs, hw, hd⟩ | ⟨he, _⟩
      · exact ⟨pre, post, hs, (flat_iff_within pre).2 hw, by omega⟩
      · cases he
    | ok r =>
      rw [hloop] at h
      by_cases hr : r = 0
      · simp [hr] at h
      · simp [hr] at h
  · rintro ⟨pre, post, rfl, hf, hd⟩
    unfold checkBrackets
    rw [checkBracketsLoop_nested post pre 0 ((flat_iff_within pre).1 hf) (by omega)]

theorem checkBrackets_closing_iff (input : Str) :
    checkBrackets input = .error .unmatchedClosing ↔
      ∃ pre post, input = pre ++ ch ']' :: post ∧ Flat pre ∧ depth pre = 0 := by
  constructor
  · intro h
    unfold checkBrackets at h
    cases hloop : checkBracketsLoop 0 input with
    | error e =>
      rw [hloop] at h
      cases h
      rcases checkBracketsLoop_error input 0 _ (by omega) (by omega) hloop with
        ⟨he, _⟩ | ⟨_, pre, post, hs, hw, hd⟩
      · cases he
      · exact ⟨pre, post, hs, (flat_iff_within pre).2 hw, by omega⟩
    | ok r =>
      rw [hloop] at h
      by_cases hr : r = 0
      · simp [hr] at h
      · simp [hr] at h
  · rintro ⟨pre, post, rfl, hf, hd⟩
    unfold checkBrackets
    rw [checkBracketsLoop_closing post pre 0 ((flat_iff_within pre).1 hf) (by omega)]

theorem checkBrackets_opening_iff (input : Str) :
    checkBrackets input = .error .unmatchedOpening ↔ Flat input ∧ depth input ≠ 0 := by
  rw [flat_iff_within]
  unfold checkBrackets
  cases hloop : checkBracketsLoop 0 input with
  | error e =>
    have hne : e ≠ .unmatchedOpening := by
      rcases checkBracketsLoop_error input 0 e (by omega) (by omega) hloop with
        ⟨he, _⟩ | ⟨he, _⟩ <;> rw [he] <;> decide
    constructor
    · intro h
      cases h
      exact absurd rfl hne
    · rintro ⟨hw, _⟩
      have := (checkBracketsLoop_ok input 0 (depth input) (by omega) (by omega)).2
        ⟨hw, by omega⟩
      rw [hloop] at this
      cases this
  | ok r =>
    have h := (checkBracketsLoop_ok input 0 r (by omega) (by omega)).1 hloop
    by_cases hr : r = 0
    · simp only [hr, ne_eq, not_true_eq_false, if_false, reduceCtorEq, false_iff, not_and,
        not_not]
      intro _
      omega
    · simp only [ne_eq, hr, not_false_eq_true, if_true, true_iff]
      exact ⟨h.1, by omega⟩

/-- C1: `checkBrackets` accepts a text if and only if, scanning left to right,
the number of `[` minus the number of `]` seen so far is 0 or 1 after every
byte and is 0 at the end of the text; every other text is rejected with an error. -/
theorem checkBrackets_accepts_iff_flat_balanced (input : Str) :
    (checkBrackets input = .ok () ↔
      (∀ k, depth (input.take k) = 0 ∨ depth (input.take k) = 1) ∧ depth input = 0) ∧
    (¬((∀ k, depth (input.take k) = 0 ∨ depth (input.take k) = 1) ∧ depth input = 0) →
      ∃ e, checkBrackets input = .error e) := by
  refine ⟨checkBrackets_ok_iff input, fun hn => ?_⟩
  cases hres : checkBrackets input with
  | error e => exact ⟨e, rfl⟩
  | ok u =>
    cases u
    exact absurd ((checkBrackets_ok_iff input).1 hres) hn

/-- C2: the error of `checkBrackets` is decided by the first offending byte: the
nested-bracket error when a `[` is met at depth 1 after a flat prefix, the
unmatched-closing error when a `]` is met at depth 0 after a flat prefix, and the
unmatched-opening error exactly when the whole text is flat but ends at a depth
other than 0; with the four examples of the specification. -/
theorem checkBrackets_error_by_first_offence :
    (∀ input : Str,
      (checkBrackets input = .error .nestedBrackets ↔
        ∃ pre post, input = pre ++ ch '[' :: post ∧
          (∀ k, depth (pre.take k) = 0 ∨ depth (pre.take k) = 1) ∧ depth pre = 1) ∧
      (checkBrackets input = .error .unmatchedClosing ↔
        ∃ pre post, input = pre ++ ch ']' :: post ∧
          (∀ k, depth (pre.take k) = 0 ∨ depth (pre.take k) = 1) ∧ depth pre = 0) ∧
      (checkBrackets input = .error .unmatchedOpening ↔
        (∀ k, depth (input.take k) = 0 ∨ depth (input.take k) = 1) ∧ depth input ≠ 0)) ∧
    checkBrackets (str "[a] text [b]") = .ok () ∧
    checkBrackets (str "[a [b] c]") = .error .nestedBrackets ∧
    checkBrackets (str "[a") = .error .unmatchedOpening ∧
    checkBrackets (str "a]") = .error .unmatchedClosing :=
  ⟨fun input => ⟨checkBrackets_nested_iff input, checkBrackets_closing_iff input,
    checkBrackets_opening_iff input⟩, by decide, by decide, by decide, by decide⟩

theorem strLess_nil_cons (y : Byte) (bs : Str) : strLess [] (y :: bs) = true := by
  simp [strLess, strCompare, traitsCompare]
  omega

theorem strLess_nil_right (a : Str) : strLess a [] = false := by
  cases a with
  | nil => simp [strLess, strCompare, traitsCompare]
  | cons x t =>
    simp [strLess, strCompare, traitsCompare]
    omega

theorem strLess_cons_cons (x y : Byte) (as bs : Str) :
    strLess (x :: as) (y :: bs) =
      if x < y then true else if y < x then false else strLess as bs := by
  unfold strLess strCompare
  rw [traitsCompare]
  by_cases h1 : x < y
  · simp [h1]
  · by_cases h2 : y < x
    · simp [h1, h2]
    · simp [h1, h2]

/-- The comparison of `std::string` is the lexicographic order on the bytes. -/
theorem strLess_iff_lex (a : Str) : ∀ b : Str, strLess a b = true ↔ List.Lex (· < ·) a b := by
  induction a with
  | nil =>
    intro b
    cases b with
    | nil => simp [strLess_nil_right, List.Lex.not_nil_right]
    | cons y bs => simp [strLess_nil_cons, List.Lex.nil]
  | cons x as ih =>
    intro b
    cases b with
    | nil => simp [strLess_nil_right, List.Lex.not_nil_right]
    | cons y bs =>
      rw [strLess_cons_cons]
      by_cases h1 : x < y
      · simp [h1, List.Lex.rel h1]
      · by_cases h2 : y < x
        · simp only [h1, h2, if_true, if_false, Bool.false_eq_true, false_iff]
          intro h
          cases h with
          | cons h => exact lt_irrefl _ h2
          | rel h => exact h1 h
        · have hxy : x = y := le_antisymm (not_lt.1 h2) (not_lt.1 h1)
          subst hxy
          simp only [h1, if_false, ih bs, List.Lex.cons_iff]

theorem lex_irrefl (a : Str) : ¬ List.Lex (· < ·) a a :=
  irrefl_of (List.Lex (· < ·)) a

theorem lex_trans {a b c : Str} (h1 : List.Lex (· < ·) a b) (h2 : List.Lex (· < ·) b c) :
    List.Lex (· < ·) a c :=
  IsTrans.trans a b c h1 h2

theorem lex_trichotomy (a b : Str) :
    List.Lex (· < ·) a b ∨ a = b ∨ List.Lex (· < ·) b a :=
  trichotomous_of (List.Lex (· < ·)) a b

theorem mem_setInsert (x : Str) (s : List Str) : ∀ z, z ∈ setInsert x s ↔ z = x ∨ z ∈ s := by
  induction s with
  | nil => intro z; simp [setInsert]
  | cons y ys ih =>
    intro z
    unfold setInsert
    by_cases h1 : strLess x y = true
    · simp [h1]
    · by_cases h2 : strLess y x = true
      · simp only [h1, h2, if_true, if_false, List.mem_cons, ih z, Bool.false_eq_true]
        tauto
      · have hxy : x = y := by
          rcases lex_trichotomy x y with h | h | h
          · exact absurd ((strLess_iff_lex x y).2 h) h1
          · exact h
          · exact absurd ((strLess_iff_lex y x).2 h) h2
        subst hxy
        simp [h1]

theorem sorted_setInsert (x : Str) (s : List Str) (hs : s.Pairwise (List.Lex (· < ·))) :
    (setInsert x s).Pairwise (List.Lex (· < ·)) := by
  induction s with
  | nil => simp [setInsert]
  | cons y ys ih =>
    rw [List.pairwise_cons] at hs
    unfold setInsert
    by_cases h1 : strLess x y = true
    · rw [if_pos h1]
      have hxy := (strLess_iff_lex x y).1 h1
      refine List.pairwise_cons.2 ⟨fun z hz => ?_, List.pairwise_cons.2 hs⟩
      rcases List.mem_cons.1 hz with rfl | hz
      · exact hxy
      · exact lex_trans hxy (hs.1 z hz)
    · rw [if_neg h1]
      by_cases h2 : strLess y x = true
      · rw [if_pos h2]
        refine List.pairwise_cons.2 ⟨fun z hz => ?_, ih hs.2⟩
        rcases (mem_setInsert x ys z).1 hz with rfl | hz
        · exact (strLess_iff_lex y z).1 h2
        · exact hs.1 z hz
      · rw [if_neg h2]
        exact List.pairwise_cons.2 hs

theorem foldl_setInsert_spec (ids : List Str) : ∀ s : List Str,
    s.Pairwise (List.Lex (· < ·)) →
    (ids.foldl (fun s x => setInsert x s) s).Pairwise (List.Lex (· < ·)) ∧
    ∀ z, z ∈ ids.foldl (fun s x => setInsert x s) s ↔ z ∈ s ∨ z ∈ ids := by
  induction ids with
  | nil => intro s hs; simp [hs]
  | cons x t ih =>
    intro s hs
    rw [List.foldl_cons]
    have := ih (setInsert x s) (sorted_setInsert x s hs)
    refine ⟨this.1, fun z => ?_⟩
    rw [this.2 z, mem_setInsert, List.mem_cons]
    tauto

theorem getOrderedIds_sorted (ids : List Str) :
    (getOrderedIds ids).Pairwise (List.Lex (· < ·)) :=
  (foldl_setInsert_spec ids [] List.Pairwise.nil).1

theorem mem_getOrderedIds (ids : List Str) (z : Str) : z ∈ getOrderedIds ids ↔ z ∈ ids := by
  unfold getOrderedIds
  rw [(foldl_setInsert_spec ids [] List.Pairwise.nil).2 z]
  simp

theorem nodup_of_lex_sorted {l : List Str} (h : l.Pairwise (List.Lex (· < ·))) : l.Nodup :=
  List.Pairwise.imp (S := fun a b => a ≠ b) (fun {a b} hab heq => by
    subst heq
    exact lex_irrefl a hab) h

theorem getOrderedIds_nodup (ids : List Str) : (getOrderedIds ids).Nodup :=
  nodup_of_lex_sorted (getOrderedIds_sorted ids)

/-- Two strictly ascending lists with the same elements are the same list. -/
theorem lex_sorted_ext {l₁ l₂ : List Str} (h₁ : l₁.Pairwise (List.Lex (· < ·)))
    (h₂ : l₂.Pairwise (List.Lex (· < ·))) (h : ∀ z, z ∈ l₁ ↔ z ∈ l₂) : l₁ = l₂ :=
  List.eq_of_perm_of_sorted
    ((List.perm_ext_iff_of_nodup (nodup_of_lex_sorted h₁) (nodup_of_lex_sorted h₂)).2 h) h₁ h₂

theorem getOrderedIds_congr (ids ids' : List Str) (h : ∀ z, z ∈ ids' ↔ z ∈ ids) :
    getOrderedIds ids' = getOrderedIds ids :=
  lex_sorted_ext (getOrderedIds_sorted ids') (getOrderedIds_sorted ids) (fun z => by
    rw [mem_getOrderedIds, mem_getOrderedIds, h z])

/-- C3: `getOrderedIds` returns a list that is strictly ascending in the
byte-wise lexicographic order, hence without duplicates, and has exactly the
elements of its input; the result is the same for every input with the same
elements, and the ids b, a, a, c give a, b, c. -/
theorem getOrderedIds_strictly_ascending_same_elements (ids : List Str) :
    (getOrderedIds ids).Pairwise (List.Lex (· < ·)) ∧
    (getOrderedIds ids).Nodup ∧
    (∀ z, z ∈ getOrderedIds ids ↔ z ∈ ids) ∧
    (∀ ids' : List Str, ids'.Perm ids → getOrderedIds ids' = getOrderedIds ids) ∧
    getOrderedIds [str "b", str "a", str "a", str "c"] = [str "a", str "b", str "c"] :=
  ⟨getOrderedIds_sorted ids, getOrderedIds_nodup ids, mem_getOrderedIds ids,
    fun ids' h => getOrderedIds_congr ids ids' (fun _ => h.mem_iff), by decide⟩

theorem getOrderedIds_strictly_ascending_same_elements_witness :
    getOrderedIds [str "c", str "a", str "b", str "a"] =
      getOrderedIds [str "b", str "a", str "a", str "c"] :=
  (getOrderedIds_strictly_ascending_same_elements
    [str "b", str "a", str "a", str "c"]).2.2.2.1 [str "c", str "a", str "b", str "a"]
    (by decide)

theorem matchHere_eq_none (rest : Str) : matchHere rest = none := by
  cases rest with
  | nil => rfl
  | cons c t => rfl

/-- The pattern asks for the end of the input and then for one more byte: no
position of any text matches it. -/
theorem regexSearch_eq_none (s : Str) : regexSearch s = none := by
  induction s with
  | nil => rfl
  | cons c t ih => rw [regexSearch, matchHere_eq_none]; exact ih

theorem extractCitationIds_eq_nil (input : Str) (citations : List Citation) :
    extractCitationIds input citations = .ok [] := by
  unfold extractCitationIds
  rw [extractLoop, regexSearch_eq_none]

theorem buildIdMap_count (citations : List Citation) (id : Str) :
    (buildIdMap citations).count id ≠ 0 ↔ id ∈ citations.map Citation.id := by
  unfold buildIdMap
  have key : ∀ (cs : List Citation) (m : UMap Bool),
      (cs.foldl (fun m c => m.set c.id true) m).count id ≠ 0 ↔
        m.count id ≠ 0 ∨ id ∈ cs.map Citation.id := by
    intro cs
    induction cs with
    | nil => intro m; simp
    | cons c t ih =>
      intro m
      rw [List.foldl_cons, ih, List.map_cons, List.mem_cons]
      have : (m.set c.id true).count id ≠ 0 ↔ m.count id ≠ 0 ∨ id = c.id := by
        unfold UMap.count UMap.set
        by_cases h : id = c.id
        · simp [h]
        · simp [h]
      rw [this]
      tauto
  rw [key citations UMap.empty]
  simp [UMap.count, UMap.empty]

/-- The loop only appends ids that `idMap` holds. -/
theorem extractLoop_mem (idMap : UMap Bool) (fuel : Nat) : ∀ (rest : Str) (acc ids : List Str),
    extractLoop idMap fuel rest acc = .ok ids →
    (∀ id, id ∈ acc → idMap.count id ≠ 0) → ∀ id, id ∈ ids → idMap.count id ≠ 0 := by
  induction fuel with
  | zero =>
    intro rest acc ids h hacc
    rw [extractLoop] at h
    cases h
    exact hacc
  | succ n ih =>
    intro rest acc ids h hacc
    rw [extractLoop] at h
    cases hs : regexSearch rest with
    | none =>
      rw [hs] at h
      cases h
      exact hacc
    | some r =>
      obtain ⟨id', after⟩ := r
      rw [hs] at h
      by_cases hc : idMap.count id' = 0
      · simp [hc] at h
      · simp only [hc, if_false] at h
        refine ih after (acc ++ [id']) ids h (fun id hid => ?_)
        rcases List.mem_append.1 hid with h1 | h1
        · exact hacc id h1
        · rw [List.mem_singleton.1 h1]; exact hc

/-- Every id that `extractCitationIds` returns is the id of a citation of the catalog. -/
theorem extractCitationIds_mem (input : Str) (citations : List Citation) (ids : List Str)
    (h : extractCitationIds input citations = .ok ids) :
    ∀ id, id ∈ ids → id ∈ citations.map Citation.id := by
  intro id hid
  rw [← buildIdMap_count]
  exact extractLoop_mem _ _ _ _ _ h (fun _ hx => absurd hx (List.not_mem_nil _)) id hid

theorem foldl_set_lookup (k : Str) (cs : List Citation) : ∀ m : UMap Citation,
    (cs.map Citation.id).Nodup →
    cs.foldl (fun m c => m.set c.id c) m k =
      match catalogCitation cs k with
      | some c => some c
      | none => m k := by
  induction cs with
  | nil => intro m _; rfl
  | cons c t ih =>
    intro m hnd
    rw [List.map_cons, List.nodup_cons] at hnd
    rw [List.foldl_cons, ih _ hnd.2]
    unfold catalogCitation
    rw [List.find?_cons]
    by_cases hk : c.id = k
    · have hnone : t.find? (fun c => decide (c.id = k)) = none := by
        rw [List.find?_eq_none]
        intro x hx hxk
        exact hnd.1 (List.mem_map.2 ⟨x, hx, by rw [of_decide_eq_true hxk, hk]⟩)
      simp [hnone, hk, UMap.set]
    · have hk' : ¬ k = c.id := fun h => hk h.symm
      cases hf : t.find? (fun c => decide (c.id = k)) with
      | none => simp [hk, hk', UMap.set]
      | some d => simp [hk]

/-- On a catalog with distinct ids, `citationMap` answers with the catalog citation of the id. -/
theorem buildCitationMap_eq (catalog : List Citation) (h : (catalog.map Citation.id).Nodup)
    (k : Str) : buildCitationMap catalog k = catalogCitation catalog k := by
  unfold buildCitationMap
  rw [foldl_set_lookup k catalog UMap.empty h]
  cases catalogCitation catalog k <;> rfl

theorem catalogCitation_isSome (catalog : List Citation) (k : Str)
    (h : k ∈ catalog.map Citation.id) :
    ∃ c, c ∈ catalog ∧ c.id = k ∧ catalogCitation catalog k = some c := by
  unfold catalogCitation
  cases hf : catalog.find? (fun c => decide (c.id = k)) with
  | none =>
    rw [List.find?_eq_none] at hf
    obtain ⟨c, hc, hck⟩ := List.mem_map.1 h
    exact absurd (decide_eq_true hck) (hf c hc)
  | some c =>
    have hp : decide (c.id = k) = true := List.find?_some (p := fun c : Citation => decide (c.id = k)) hf
    exact ⟨c, List.mem_of_find?_eq_some hf, of_decide_eq_true hp, rfl⟩

theorem printLoop_ok (f : Str → Option Citation) (l : List Str) : ∀ out : Str,
    (∀ id, id ∈ l → (f id).isSome) →
    printLoop out (l.map (fun id => (id, f id))) =
      .ok (out ++ ((l.filterMap f).map (fun c => c.format ++ str "\n")).flatten) := by
  induction l with
  | nil => intro out _; simp [printLoop]
  | cons id t ih =>
    intro out h
    have hid := h id (List.mem_cons_self _ _)
    cases hf : f id with
    | none => rw [hf] at hid; cases hid
    | some c =>
      rw [List.map_cons, hf, printLoop, ih _ (fun x hx => h x (List.mem_cons_of_mem _ hx)),
        List.filterMap_cons, hf]
      simp [List.append_assoc]

/-- Lines 190-217 of `main` on ids that the catalog holds: the manuscript, the
heading, and the reference lines in the order `getOrderedIds` gives. -/
theorem renderOutput_eq (input : Str) (catalog : List Citation) (ids : List Str)
    (hcat : (catalog.map Citation.id).Nodup)
    (hids : ∀ id, id ∈ ids → id ∈ catalog.map Citation.id) :
    renderOutput input catalog ids =
      .ok (input ++ str "\nReferences:\n" ++ referenceLines catalog (getOrderedIds ids)) := by
  unfold renderOutput referenceLines
  have hfun : buildCitationMap catalog = catalogCitation catalog :=
    funext (buildCitationMap_eq catalog hcat)
  simp only [hfun]
  apply printLoop_ok
  intro id hid
  obtain ⟨c, _, _, hc⟩ := catalogCitation_isSome catalog id
    (hids id ((mem_getOrderedIds ids id).1 hid))
  rw [hc]; rfl

/-- C6: for a catalog with distinct ids, lines 190-217 of `main` turn every
sequence of extracted ids that the catalog holds into the unchanged manuscript,
then the literal "\nReferences:\n", then the `format()` output of the catalog
citation of each id of `getOrderedIds` of the extracted ids, in that order,
each ended by a newline, every such id having its catalog citation; and for a
manuscript that passes `checkBrackets` and `extractCitationIds`, the output of
the program is that text for the ids that `extractCitationIds` returned. -/
theorem docmanMain_output_layout (catalog : List Citation) (input : Str)
    (hcat : (catalog.map Citation.id).Nodup) :
    (∀ ids : List Str, (∀ id, id ∈ ids → id ∈ catalog.map Citation.id) →
      renderOutput input catalog ids =
        .ok (input ++ str "\nReferences:\n" ++ referenceLines catalog (getOrderedIds ids)) ∧
      ∀ id, id ∈ getOrderedIds ids →
        ∃ c, c ∈ catalog ∧ c.id = id ∧ catalogCitation catalog id = some c) ∧
    (∀ ids : List Str, checkBrackets input = .ok () →
      extractCitationIds input catalog = .ok ids →
      docmanMain catalog input = renderOutput input catalog ids ∧
      docmanMain catalog input =
        .ok (input ++ str "\nReferences:\n" ++ referenceLines catalog (getOrderedIds ids)) ∧
      ∀ id, id ∈ getOrderedIds ids →
        ∃ c, c ∈ catalog ∧ c.id = id ∧ catalogCitation catalog id = some c) := by
  have stage : ∀ ids : List Str, (∀ id, id ∈ ids → id ∈ catalog.map Citation.id) →
      renderOutput input catalog ids =
        .ok (input ++ str "\nReferences:\n" ++ referenceLines catalog (getOrderedIds ids)) ∧
      ∀ id, id ∈ getOrderedIds ids →
        ∃ c, c ∈ catalog ∧ c.id = id ∧ catalogCitation catalog id = some c :=
    fun ids hids => ⟨renderOutput_eq input catalog ids hcat hids,
      fun id hid => catalogCitation_isSome catalog id
        (hids id ((mem_getOrderedIds ids id).1 hid))⟩
  refine ⟨stage, fun ids hb he => ?_⟩
  have hmem := extractCitationIds_mem input catalog ids he
  have hmain : docmanMain catalog input = renderOutput input catalog ids := by
    unfold docmanMain
    rw [hb, he]
  exact ⟨hmain, hmain.trans (stage ids hmem).1, (stage ids hmem).2⟩

/-- C4: on the manuscript "[b] [a] [a] [c]", which passes `checkBrackets` and
whose marker ids b, a, a, c are all in the catalog, `extractCitationIds`
returns the empty sequence and not the four marker ids. -/
theorem extractCitationIds_returns_no_marker :
    checkBrackets (str "[b] [a] [a] [c]") = .ok () ∧
    bracketedSpans (str "[b] [a] [a] [c]") = [str "b", str "a", str "a", str "c"] ∧
    (∀ id, id ∈ bracketedSpans (str "[b] [a] [a] [c]") →
      id ∈ sampleCatalog.map Citation.id) ∧
    extractCitationIds (str "[b] [a] [a] [c]") sampleCatalog = .ok [] ∧
    extractCitationIds (str "[b] [a] [a] [c]") sampleCatalog ≠
      .ok (bracketedSpans (str "[b] [a] [a] [c]")) := by
  refine ⟨by decide, by decide, by decide, by decide, by decide⟩

/-- C5: on the manuscript "[zzz]", which passes `checkBrackets` and whose
marker id zzz is the id of no citation of the catalog, `extractCitationIds`
returns the empty sequence instead of failing with the id-not-found error. -/
theorem extractCitationIds_accepts_unknown_id :
    checkBrackets (str "[zzz]") = .ok () ∧
    bracketedSpans (str "[zzz]") = [str "zzz"] ∧
    str "zzz" ∉ sampleCatalog.map Citation.id ∧
    extractCitationIds (str "[zzz]") sampleCatalog = .ok [] ∧
    extractCitationIds (str "[zzz]") sampleCatalog ≠ .error (.idNotFound (str "zzz")) := by
  refine ⟨by decide, by decide, by decide, by decide, by decide⟩

/-- C7: on the manuscript "[a]" and a catalog holding the id a, the program
succeeds and writes the heading with no reference line after it, although the
id a occurs as a marker. -/
theorem docmanMain_omits_cited_reference :
    bracketedSpans (str "[a]") = [str "a"] ∧
    str "a" ∈ sampleCatalog.map Citation.id ∧
    docmanMain sampleCatalog (str "[a]") = .ok (str "[a]\nReferences:\n") ∧
    docmanMain sampleCatalog (str "[a]") ≠
      .ok (str "[a]\nReferences:\n" ++ referenceLines sampleCatalog [str "a"]) := by
  refine ⟨by decide, by decide, by decide, by decide⟩

theorem docmanMain_output_layout_witness :
    (sampleCatalog.map Citation.id).Nodup ∧
    (∀ id, id ∈ [str "b", str "a", str "a", str "c"] → id ∈ sampleCatalog.map Citation.id) ∧
    renderOutput (str "[b] [a] [a] [c]") sampleCatalog [str "b", str "a", str "a", str "c"] =
      .ok (str "[b] [a] [a] [c]\nReferences:\n[a] book: A, T, P, 2020\n[b] webpage: Home. Available at http://b.example\n[c] article: C, U, J, 1999, 7, 2\n") ∧
    checkBrackets (str "[b] [a] [a] [c]") = .ok () ∧
    extractCitationIds (str "[b] [a] [a] [c]") sampleCatalog = .ok [] ∧
    docmanMain sampleCatalog (str "[b] [a] [a] [c]") =
      .ok (str "[b] [a] [a] [c]" ++ str "\nReferences:\n" ++
        referenceLines sampleCatalog (getOrderedIds [])) :=
  ⟨by decide, by decide,
    ((docmanMain_output_layout sampleCatalog (str "[b] [a] [a] [c]") (by decide)).1
      [str "b", str "a", str "a", str "c"] (by decide)).1.trans (by decide),
    by decide, by decide,
    ((docmanMain_output_layout sampleCatalog (str "[b] [a] [a] [c]") (by decide)).2
      [] (by decide) (by decide)).2.1⟩

theorem foldl_set_lookup_last (k : Str) (cs : List Citation) : ∀ m : UMap Citation,
    cs.foldl (fun m c => m.set c.id c) m k =
      match lastCitation cs k with
      | some c => some c
      | none => m k := by
  induction cs with
  | nil => intro m; rfl
  | cons c t ih =>
    intro m
    rw [List.foldl_cons, ih, lastCitation]
    cases hl : lastCitation t k with
    | some d => rfl
    | none =>
      by_cases hk : c.id = k
      · simp [hk, UMap.set]
      · have hk' : ¬ k = c.id := fun h => hk h.symm
        simp [hk, hk', UMap.set]

/-- The map `citationMap` answers with the last citation of the catalog that
carries the id. -/
theorem buildCitationMap_eq_last (catalog : List Citation) (k : Str) :
    buildCitationMap catalog k = lastCitation catalog k := by
  unfold buildCitationMap
  rw [foldl_set_lookup_last k catalog UMap.empty]
  cases lastCitation catalog k <;> rfl

theorem lastCitation_mem (catalog : List Citation) (k : Str) (c : Citation)
    (h : lastCitation catalog k = some c) : c ∈ catalog ∧ c.id = k := by
  induction catalog with
  | nil => cases h
  | cons d t ih =>
    rw [lastCitation] at h
    cases hl : lastCitation t k with
    | some e =>
      rw [hl] at h
      cases h
      exact ⟨List.mem_cons_of_mem _ (ih hl).1, (ih hl).2⟩
    | none =>
      rw [hl] at h
      by_cases hk : d.id = k
      · simp only [hk, if_true, Option.some.injEq] at h
        subst h
        exact ⟨List.mem_cons_self _ _, hk⟩
      · simp [hk] at h

theorem lastCitation_isSome (catalog : List Citation) (k : Str)
    (h : k ∈ catalog.map Citation.id) : ∃ c, lastCitation catalog k = some c := by
  induction catalog with
  | nil => cases h
  | cons d t ih =>
    rw [lastCitation]
    cases hl : lastCitation t k with
    | some e => exact ⟨e, rfl⟩
    | none =>
      rw [List.map_cons, List.mem_cons] at h
      rcases h with h | h
      · exact ⟨d, by simp [h]⟩
      · obtain ⟨c, hc⟩ := ih h
        rw [hl] at hc
        cases hc

/-- Lines 190-217 of `main` on ids that the catalog holds, whether or not the
ids of the catalog are distinct: one line per distinct id, in lexicographic
order, from the last citation that carries the id. -/
theorem renderOutput_lists_in_lex_order (input : Str) (catalog : List Citation)
    (ids : List Str) (hids : ∀ id, id ∈ ids → id ∈ catalog.map Citation.id) :
    ListsInLexOrder catalog ids input (renderOutput input catalog ids) := by
  have hsome : ∀ id, id ∈ getOrderedIds ids → (lastCitation catalog id).isSome := by
    intro id hid
    obtain ⟨c, hc⟩ := lastCitation_isSome catalog id (hids id ((mem_getOrderedIds ids id).1 hid))
    rw [hc]; rfl
  have hmap : ∀ l : List Str, (∀ id, id ∈ l → (lastCitation catalog id).isSome) →
      (l.filterMap (lastCitation catalog)).map Citation.id = l ∧
      ∀ c, c ∈ l.filterMap (lastCitation catalog) → lastCitation catalog c.id = some c := by
    intro l
    induction l with
    | nil => intro _; exact ⟨rfl, fun c hc => by cases hc⟩
    | cons x t ih =>
      intro hl
      have hx := hl x (List.mem_cons_self _ _)
      cases hc : lastCitation catalog x with
      | none => rw [hc] at hx; cases hx
      | some c =>
        have hcx := (lastCitation_mem catalog x c hc).2
        obtain ⟨ih1, ih2⟩ := ih (fun z hz => hl z (List.mem_cons_of_mem _ hz))
        rw [List.filterMap_cons, hc]
        refine ⟨by rw [List.map_cons, hcx, ih1], fun d hd => ?_⟩
        rcases List.mem_cons.1 hd with rfl | hd
        · rw [hcx]; exact hc
        · exact ih2 d hd
  refine ⟨getOrderedIds ids, (getOrderedIds ids).filterMap (lastCitation catalog), ?_,
    (hmap _ hsome).1, (hmap _ hsome).2, getOrderedIds_sorted ids, getOrderedIds_nodup ids,
    mem_getOrderedIds ids⟩
  unfold renderOutput
  have hfun : buildCitationMap catalog = lastCitation catalog :=
    funext (buildCitationMap_eq_last catalog)
  simp only [hfun]
  exact printLoop_ok (lastCitation catalog) (getOrderedIds ids) _ hsome

/-- C8, as stated: `getOrderedIds` does not return the first-appearance order:
the marker sequence b, a, whose first-appearance order is b, a, is put in the
order a, b, and lines 190-217 of `main` write the line of a before the line of
b for it; and for the manuscript "[b] [a]" the whole program writes the heading
with no reference line, which is not the lines of b and a either. -/
theorem references_not_in_first_appearance_order :
    ¬ (∀ ids : List Str, getOrderedIds ids = firstAppearance ids) ∧
    firstAppearance [str "b", str "a"] = [str "b", str "a"] ∧
    getOrderedIds [str "b", str "a"] = [str "a", str "b"] ∧
    renderOutput (str "[b] [a]") sampleCatalog [str "b", str "a"] =
      .ok (str "[b] [a]\nReferences:\n[a] book: A, T, P, 2020\n[b] webpage: Home. Available at http://b.example\n") ∧
    renderOutput (str "[b] [a]") sampleCatalog [str "b", str "a"] ≠
      .ok (str "[b] [a]" ++ str "\nReferences:\n" ++
        referenceLines sampleCatalog (firstAppearance [str "b", str "a"])) ∧
    checkBrackets (str "[b] [a]") = .ok () ∧
    docmanMain sampleCatalog (str "[b] [a]") = .ok (str "[b] [a]\nReferences:\n") ∧
    docmanMain sampleCatalog (str "[b] [a]") ≠
      .ok (str "[b] [a]" ++ str "\nReferences:\n" ++
        referenceLines sampleCatalog (firstAppearance (bracketedSpans (str "[b] [a]")))) := by
  refine ⟨fun h => ?_, by decide, by decide, by decide, by decide, by decide, by decide,
    by decide⟩
  exact absurd (h [str "b", str "a"]) (by decide)

/-- C8, amended: for every sequence of ids that the catalog holds, lines 190-217
of `main` write the manuscript, the heading and one reference line for each
distinct id, the lines in the strictly ascending byte-wise lexicographic order
of their ids, each from the last catalog citation that carries the id; and for
a manuscript that passes `checkBrackets` and `extractCitationIds`, the output of
the program has that form for the ids that `extractCitationIds` returned. -/
theorem references_in_lexicographic_order (input : Str) (catalog : List Citation)
    (ids : List Str) :
    ((∀ id, id ∈ ids → id ∈ catalog.map Citation.id) →
      ListsInLexOrder catalog ids input (renderOutput input catalog ids)) ∧
    (checkBrackets input = .ok () → extractCitationIds input catalog = .ok ids →
      ListsInLexOrder catalog ids input (docmanMain catalog input)) := by
  refine ⟨renderOutput_lists_in_lex_order input catalog ids, fun hb he => ?_⟩
  have hmain : docmanMain catalog input = renderOutput input catalog ids := by
    unfold docmanMain
    rw [hb, he]
  rw [hmain]
  exact renderOutput_lists_in_lex_order input catalog ids
    (extractCitationIds_mem input catalog ids he)

theorem references_in_lexicographic_order_witness :
    (∀ id, id ∈ [str "b", str "a", str "b"] → id ∈ sampleRepeatedCatalog.map Citation.id) ∧
    ListsInLexOrder sampleRepeatedCatalog [str "b", str "a", str "b"] (str "[b] [a] [b]")
      (renderOutput (str "[b] [a] [b]") sampleRepeatedCatalog [str "b", str "a", str "b"]) ∧
    renderOutput (str "[b] [a] [b]") sampleRepeatedCatalog [str "b", str "a", str "b"] =
      .ok (str "[b] [a] [b]\nReferences:\n[a] book: LAST, T, P, 2021\n[b] webpage: Home. Available at http://b.example\n") ∧
    checkBrackets (str "[b] [a] [b]") = .ok () ∧
    extractCitationIds (str "[b] [a] [b]") sampleRepeatedCatalog = .ok [] ∧
    ListsInLexOrder sampleRepeatedCatalog [] (str "[b] [a] [b]")
      (docmanMain sampleRepeatedCatalog (str "[b] [a] [b]")) :=
  ⟨by decide,
    (references_in_lexicographic_order (str "[b] [a] [b]") sampleRepeatedCatalog
      [str "b", str "a", str "b"]).1 (by decide),
    by decide, by decide, by decide,
    (references_in_lexicographic_order (str "[b] [a] [b]") sampleRepeatedCatalog
      []).2 (by decide) (by decide)⟩

set_option maxRecDepth 100000 in
theorem encodeByte_eq_percentEncodeByte : ∀ c : Byte, encodeByte c = percentEncodeByte c := by
  decide

theorem foldl_append_eq_flatMap (f : Byte → Str) (s : Str) : ∀ acc : Str,
    s.foldl (fun encoded c => encoded ++ f c) acc = acc ++ (s.map f).flatten := by
  induction s with
  | nil => intro acc; simp
  | cons c t ih => intro acc; rw [List.foldl_cons, ih]; simp [List.append_assoc]

/-- C9: `encodeUriComponent` is the concatenation, byte by byte in order, of
the byte itself for an ASCII letter, an ASCII digit or one of `-`, `_`, `.`,
`~`, of `+` for a space, and otherwise of `%` followed by the two uppercase
hexadecimal digits of the byte; "a b/c" encodes to "a+b%2Fc". -/
theorem encodeUriComponent_eq_percent_encoding :
    (∀ s : Str, encodeUriComponent s = (s.map percentEncodeByte).flatten) ∧
    encodeUriComponent (str "a b/c") = str "a+b%2Fc" := by
  refine ⟨fun s => ?_, by decide⟩
  unfold encodeUriComponent
  rw [foldl_append_eq_flatMap, List.nil_append]
  congr 2
  exact funext encodeByte_eq_percentEncodeByte

/-- C10: a Book citation formats to `[id] book: author, title, publisher, year`;
the Book x, A, T, P, 2020 formats to "[x] book: A, T, P, 2020". -/
theorem book_format (i a t p y : Str) :
    (Citation.book i a t p y).format =
      str "[" ++ i ++ str "] book: " ++ a ++ str ", " ++ t ++ str ", " ++ p ++ str ", " ++ y ∧
    (Citation.book (str "x") (str "A") (str "T") (str "P") (str "2020")).format =
      str "[x] book: A, T, P, 2020" :=
  ⟨rfl, by decide⟩

theorem ch_digitChar (d : Nat) (h : d < 10) : ch (Nat.digitChar d) = Fin.ofNat (48 + d) := by
  interval_cases d <;> decide

theorem toDigitsCore_eq (fuel : Nat) : ∀ (n : Nat) (ds : List Char), n < fuel →
    Nat.toDigitsCore 10 fuel n ds =
      (if n = 0 then [Nat.digitChar 0]
        else (Nat.digits 10 n).reverse.map Nat.digitChar) ++ ds := by
  induction fuel with
  | zero => intro n ds h; omega
  | succ f ih =>
    intro n ds h
    rw [Nat.toDigitsCore]
    by_cases hq : n / 10 = 0
    · have hn : n < 10 := by omega
      simp only [hq, if_true]
      by_cases h0 : n = 0
      · subst h0; simp
      · have hd : Nat.digits 10 n = [n] := by
          rw [Nat.digits_def' (by omega) (by omega), hq, Nat.mod_eq_of_lt hn]
          simp
        simp [h0, hd, Nat.mod_eq_of_lt hn]
    · have h0 : n ≠ 0 := by omega
      have hq0 : ¬ n / 10 = 0 := hq
      simp only [hq, if_false]
      rw [ih (n / 10) _ (by omega)]
      rw [if_neg hq0, if_neg h0, Nat.digits_def' (by omega) (by omega : 0 < n)]
      simp

/-- The stream's decimal output of an `int` is the plain decimal numeral. -/
theorem decimal_eq_plainDecimal (n : Int) : decimal n = plainDecimal n := by
  have key : ∀ m : Nat, (Nat.toDigits 10 m).map ch = decimalDigits m := by
    intro m
    unfold Nat.toDigits decimalDigits
    rw [toDigitsCore_eq (m + 1) m [] (by omega), List.append_nil]
    by_cases h0 : m = 0
    · subst h0; decide
    · rw [if_neg h0, if_neg h0, List.map_map]
      apply List.map_congr_left
      intro d hd
      exact ch_digitChar d (Nat.digits_lt_base (by omega) (List.mem_reverse.1 hd))
  unfold decimal plainDecimal
  rw [key]
  rfl

/-- C11: an Article citation formats to `[id] article: author, title, journal,
year, volume, issue`, the three integers written in plain decimal: a leading
minus sign for a negative value, no padding and no grouping. -/
theorem article_format (i a t j : Str) (year volume issue : Int) :
    (Citation.article i a t j year volume issue).format =
      str "[" ++ i ++ str "] article: " ++ a ++ str ", " ++ t ++ str ", " ++ j ++ str ", "
        ++ plainDecimal year ++ str ", " ++ plainDecimal volume ++ str ", "
        ++ plainDecimal issue ∧
    (Citation.article (str "x") (str "A") (str "T") (str "J") 2020 (-3) 0).format =
      str "[x] article: A, T, J, 2020, -3, 0" := by
  refine ⟨?_, by decide⟩
  rw [← decimal_eq_plainDecimal, ← decimal_eq_plainDecimal, ← decimal_eq_plainDecimal]
  rfl

set_option maxRecDepth 100000 in
/-- The three shapes of what the loop writes for one byte: the byte itself,
never `%` or `+`; the `+` of a space; or `%` and two digits that give the byte back. -/
theorem encodeByte_shape : ∀ c : Byte,
    (encodeByte c = [c] ∧ c ≠ 37 ∧ c ≠ 43) ∨
    (encodeByte c = [43] ∧ c = 32) ∨
    (encodeByte c = [37, hexDigitUpper (c.val / 16), hexDigitUpper (c.val % 16)] ∧
      16 * hexValue (hexDigitUpper (c.val / 16)) + hexValue (hexDigitUpper (c.val % 16))
        = c.val) := by
  decide

theorem encodeUriComponent_cons (c : Byte) (s : Str) :
    encodeUriComponent (c :: s) = encodeByte c ++ encodeUriComponent s := by
  unfold encodeUriComponent
  rw [List.foldl_cons, foldl_append_eq_flatMap, foldl_append_eq_flatMap]
  simp

theorem encodeByte_ne_nil (c : Byte) : encodeByte c ≠ [] := by
  rcases encodeByte_shape c with h | h | h <;> rw [h.1] <;> simp

/-- What is written for one byte determines the byte and where its encoding ends. -/
theorem encodeByte_append_inj (c d : Byte) (u v : Str)
    (h : encodeByte c ++ u = encodeByte d ++ v) : c = d ∧ u = v := by
  rcases encodeByte_shape c with ⟨hc, hc1, hc2⟩ | ⟨hc, hc1⟩ | ⟨hc, hc1⟩ <;>
  rcases encodeByte_shape d with ⟨hd, hd1, hd2⟩ | ⟨hd, hd1⟩ | ⟨hd, hd1⟩ <;>
  rw [hc, hd] at h <;>
  simp only [List.cons_append, List.nil_append, List.cons.injEq] at h
  · exact ⟨h.1, h.2⟩
  · exact absurd h.1 hc2
  · exact absurd h.1 hc1
  · exact absurd h.1.symm hd2
  · exact ⟨hc1.trans hd1.symm, h.2⟩
  · exact absurd h.1 (by decide)
  · exact absurd h.1.symm hd1
  · exact absurd h.1 (by decide)
  · obtain ⟨_, h1, h2, h3⟩ := h
    refine ⟨Fin.ext ?_, h3⟩
    rw [← hc1, ← hd1, h1, h2]

/-- C20: `encodeUriComponent` is injective: two byte strings with the same
encoding are the same string. -/
theorem encodeUriComponent_injective (s t : Str)
    (h : encodeUriComponent s = encodeUriComponent t) : s = t := by
  induction s generalizing t with
  | nil =>
    cases t with
    | nil => rfl
    | cons d t' =>
      rw [encodeUriComponent_cons] at h
      have h' : encodeByte d ++ encodeUriComponent t' = [] := h.symm
      exact absurd (List.append_eq_nil.1 h').1 (encodeByte_ne_nil d)
  | cons c s' ih =>
    cases t with
    | nil =>
      rw [encodeUriComponent_cons] at h
      have h' : encodeByte c ++ encodeUriComponent s' = [] := h
      exact absurd (List.append_eq_nil.1 h').1 (encodeByte_ne_nil c)
    | cons d t' =>
      rw [encodeUriComponent_cons, encodeUriComponent_cons] at h
      obtain ⟨hcd, hrest⟩ := encodeByte_append_inj c d _ _ h
      rw [hcd, ih t' hrest]

theorem encodeUriComponent_injective_witness :
    encodeUriComponent [97, 32, 43] = encodeUriComponent (str "a +") ∧
      [97, 32, 43] = str "a +" :=
  ⟨by decide, encodeUriComponent_injective [97, 32, 43] (str "a +") (by decide)⟩

theorem loadEntry_book (parse : Str → Option Json) (get : Service) (entry : Json)
    (id isbn : Str) (h1 : entry.find (str "id") = some (.string id))
    (h2 : entry.find (str "type") = some (.string (str "book")))
    (h3 : entry.find (str "isbn") = some (.string isbn)) :
    loadEntry parse get entry =
      ([str "/isbn/" ++ encodeUriComponent isbn],
        fetchAndBuild parse get (str "/isbn/" ++ encodeUriComponent isbn)
          (.bookFetchFailed isbn) (bookFromInfo id)) := by
  simp [loadEntry, Json.contains, Json.at, Json.isString, Json.getString, h1, h2, h3]

theorem loadEntry_book_no_isbn (parse : Str → Option Json) (get : Service) (entry : Json)
    (id : Str) (h1 : entry.find (str "id") = some (.string id))
    (h2 : entry.find (str "type") = some (.string (str "book")))
    (h3 : ∀ isbn, entry.find (str "isbn") ≠ some (.string isbn)) :
    loadEntry parse get entry = ([], .error .bookMissingIsbn) := by
  have h : (!entry.contains (str "isbn") || !(entry.at (str "isbn")).isString) = true := by
    unfold Json.contains Json.at
    cases hf : entry.find (str "isbn") with
    | none => rfl
    | some v =>
      cases v with
      | string s => exact absurd hf (h3 s)
      | _ => rfl
  simp [loadEntry, Json.contains, Json.at, Json.isString, Json.getString, h1, h2] at h ⊢
  intro hc hs
  simp [hc, hs] at h
  
theorem loadEntry_webpage (parse : Str → Option Json) (get : Service) (entry : Json)
    (id url : Str) (h1 : entry.find (str "id") = some (.string id))
    (h2 : entry.find (str "type") = some (.string (str "webpage")))
    (h3 : entry.find (str "url") = some (.string url)) :
    loadEntry parse get entry =
      ([str "/title/" ++ encodeUriComponent url],
        fetchAndBuild parse get (str "/title/" ++ encodeUriComponent url)
          (.webpageFetchFailed url) (webpageFromInfo id url)) := by
  have hne : str "webpage" ≠ str "book" := by decide
  simp [loadEntry, Json.contains, Json.at, Json.isString, Json.getString, h1, h2, h3, hne]

theorem loadEntry_unknown (parse : Str → Option Json) (get : Service) (entry : Json)
    (id type : Str) (h1 : entry.find (str "id") = some (.string id))
    (h2 : entry.find (str "type") = some (.string type))
    (hb : type ≠ str "book") (hw : type ≠ str "webpage") (ha : type ≠ str "article") :
    loadEntry parse get entry = ([], .error (.unknownType type)) := by
  simp [loadEntry, Json.contains, Json.at, Json.isString, Json.getString, h1, h2, hb, hw, ha]

theorem loadLoop_cons_ok (parse : Str → Option Json) (get : Service) (entry : Json)
    (rest : List Json) (citations : List Citation) (requests : List Str) (c : Citation)
    (h : (loadEntry parse get entry).2 = .ok c) :
    loadLoop parse get (entry :: rest) citations requests =
      loadLoop parse get rest (citations ++ [c])
        (requests ++ (loadEntry parse get entry).1) := by
  rw [loadLoop]
  cases hle : loadEntry parse get entry with
  | mk issued r =>
    rw [hle] at h
    simp only at h
    subst h
    rfl

theorem loadLoop_cons_error (parse : Str → Option Json) (get : Service) (entry : Json)
    (rest : List Json) (citations : List Citation) (requests : List Str) (e : LoadError)
    (h : (loadEntry parse get entry).2 = .error e) :
    loadLoop parse get (entry :: rest) citations requests =
      (requests ++ (loadEntry parse get entry).1, .error e) := by
  rw [loadLoop]
  cases hle : loadEntry parse get entry with
  | mk issued r =>
    rw [hle] at h
    simp only at h
    subst h
    rfl

/-- A catalog comes out of the loop only when every entry yields its citation,
and it holds these citations in the order of the entries. -/
theorem loadLoop_ok (parse : Str → Option Json) (get : Service) (entries : List Json) :
    ∀ (citations : List Citation) (requests : List Str) (cs : List Citation),
    (loadLoop parse get entries citations requests).2 = .ok cs →
    ∃ loaded, cs = citations ++ loaded ∧
      List.Forall₂ (fun e c => (loadEntry parse get e).2 = .ok c) entries loaded := by
  induction entries with
  | nil =>
    intro citations requests cs h
    simp only [loadLoop, Except.ok.injEq] at h
    exact ⟨[], by simp [h], List.Forall₂.nil⟩
  | cons e rest ih =>
    intro citations requests cs h
    cases hr : (loadEntry parse get e).2 with
    | error err =>
      rw [loadLoop_cons_error parse get e rest citations requests err hr] at h
      cases h
    | ok c =>
      rw [loadLoop_cons_ok parse get e rest citations requests c hr] at h
      obtain ⟨loaded, hcs, hall⟩ := ih _ _ _ h
      exact ⟨c :: loaded, by simp [hcs], List.Forall₂.cons hr hall⟩

/-- An entry that ends with an error keeps the loop from returning a catalog. -/
theorem loadLoop_not_ok (parse : Str → Option Json) (get : Service) (entries : List Json)
    (citations : List Citation) (requests : List Str) (e : Json) (err : LoadError)
    (he : e ∈ entries) (herr : (loadEntry parse get e).2 = .error err) (cs : List Citation) :
    (loadLoop parse get entries citations requests).2 ≠ .ok cs := by
  intro h
  obtain ⟨loaded, _, hall⟩ := loadLoop_ok parse get entries citations requests cs h
  have : ∀ (es : List Json) (l : List Citation),
      List.Forall₂ (fun e c => (loadEntry parse get e).2 = .ok c) es l →
      e ∈ es → ∃ c, (loadEntry parse get e).2 = .ok c := by
    intro es l hf
    induction hf with
    | nil => intro hm; cases hm
    | cons hhead _ ih =>
      intro hm
      rcases List.mem_cons.1 hm with rfl | hm
      · exact ⟨_, hhead⟩
      · exact ih hm
  obtain ⟨c, hc⟩ := this entries loaded hall he
  rw [herr] at hc
  cases hc

/-- When the entries before one load, the loop ends at that entry with its
error, having issued the requests of the entries before it and its own. -/
theorem loadLoop_stops_at (parse : Str → Option Json) (get : Service) (e : Json)
    (post : List Json) (err : LoadError) (herr : (loadEntry parse get e).2 = .error err)
    (pre : List Json) : ∀ (citations : List Citation) (requests : List Str),
    (∀ e', e' ∈ pre → ∃ c, (loadEntry parse get e').2 = .ok c) →
    loadLoop parse get (pre ++ e :: post) citations requests =
      (requests ++ (pre.map (fun e' => (loadEntry parse get e').1)).flatten ++
        (loadEntry parse get e).1, .error err) := by
  induction pre with
  | nil =>
    intro citations requests _
    rw [List.nil_append, loadLoop_cons_error parse get e post citations requests err herr]
    simp
  | cons p rest ih =>
    intro citations requests hpre
    obtain ⟨c, hc⟩ := hpre p (List.mem_cons_self _ _)
    rw [List.cons_append, loadLoop_cons_ok parse get p _ citations requests c hc,
      ih _ _ (fun e' he' => hpre e' (List.mem_cons_of_mem _ he'))]
    simp [List.append_assoc]

/-- Past the two checks of the document, `loadCitations` is the loop over the entries. -/
theorem loadCitations_eq_loadLoop (parse : Str → Option Json) (get : Service) (data v : Json)
    (entries : List Json) (hv : data.find (str "version") = some v)
    (hv1 : v.equalsInt 1 = true)
    (hc : data.find (str "citations") = some (.array entries)) :
    loadCitations parse get data = loadLoop parse get entries [] [] := by
  simp [loadCitations, Json.contains, Json.at, Json.isArray, Json.items, hv, hv1, hc]

/-- Reading a member of a parsed response as a string succeeds exactly when the
response is an object with a string member under the key. -/
theorem member_bind_getString {α : Type} (info : Json) (k : Str)
    (f : Str → Except LoadError α) :
    (info.member k >>= fun v => v.getString >>= f) =
      match info.find k with
      | some (.string s) => f s
      | _ => .error .jsonTypeError := by
  cases info with
  | object members =>
    simp only [Json.member, Json.find]
    cases hl : lookupMember k members with
    | none => rfl
    | some v => cases v <;> rfl
  | _ => rfl

theorem webpageFromInfo_eq (id url : Str) (info : Json) :
    webpageFromInfo id url info =
      match info.find (str "title") with
      | some (.string title) => .ok (.webpage id title url)
      | _ => .error .jsonTypeError := by
  unfold webpageFromInfo
  exact member_bind_getString info (str "title") _

theorem bookFromInfo_eq (id : Str) (info : Json) :
    bookFromInfo id info =
      match info.find (str "author") with
      | some (.string author) =>
        match info.find (str "title") with
        | some (.string title) =>
          match info.find (str "publisher") with
          | some (.string publisher) =>
            match info.find (str "year") with
            | some (.string year) => .ok (.book id author title publisher year)
            | _ => .error .jsonTypeError
          | _ => .error .jsonTypeError
        | _ => .error .jsonTypeError
      | _ => .error .jsonTypeError := by
  unfold bookFromInfo
  simp only [member_bind_getString]
  rfl

theorem fetchAndBuild_ok_iff (parse : Str → Option Json) (get : Service) (path : Str)
    (failed : LoadError) (build : Json → Except LoadError Citation) (c : Citation) :
    fetchAndBuild parse get path failed build = .ok c ↔
      ∃ res info, get path = some res ∧ res.status = 200 ∧ parse res.body = some info ∧
        build info = .ok c := by
  unfold fetchAndBuild
  cases hg : get path with
  | none => simp
  | some res =>
    by_cases hs : res.status = 200
    · cases hp : parse res.body with
      | none => simp [hs, hp]
      | some info => simp [hs, hp]
    · simp [hs]

theorem bookFromInfo_ok_iff (id : Str) (info : Json) (c : Citation) :
    bookFromInfo id info = .ok c ↔
      ∃ a t p y, info.find (str "author") = some (.string a) ∧
        info.find (str "title") = some (.string t) ∧
        info.find (str "publisher") = some (.string p) ∧
        info.find (str "year") = some (.string y) ∧ c = .book id a t p y := by
  rw [bookFromInfo_eq]
  constructor
  · intro h
    rcases ha : info.find (str "author") with _ | va
    · rw [ha] at h; cases h
    cases va <;> rw [ha] at h <;> try cases h
    rename_i a
    rcases ht : info.find (str "title") with _ | vt
    · rw [ht] at h; cases h
    cases vt <;> rw [ht] at h <;> try cases h
    rename_i t
    rcases hp : info.find (str "publisher") with _ | vp
    · rw [hp] at h; cases h
    cases vp <;> rw [hp] at h <;> try cases h
    rename_i p
    rcases hy : info.find (str "year") with _ | vy
    · rw [hy] at h; cases h
    cases vy <;> rw [hy] at h <;> try cases h
    rename_i y
    exact ⟨a, t, p, y, rfl, rfl, rfl, rfl, rfl⟩
  · rintro ⟨a, t, p, y, ha, ht, hp, hy, rfl⟩
    simp [ha, ht, hp, hy]

theorem webpageFromInfo_ok_iff (id url : Str) (info : Json) (c : Citation) :
    webpageFromInfo id url info = .ok c ↔
      ∃ t, info.find (str "title") = some (.string t) ∧ c = .webpage id t url := by
  rw [webpageFromInfo_eq]
  constructor
  · intro h
    rcases ht : info.find (str "title") with _ | vt
    · rw [ht] at h; cases h
    cases vt <;> rw [ht] at h <;> try cases h
    rename_i t
    exact ⟨t, rfl, rfl⟩
  · rintro ⟨t, ht, rfl⟩
    simp [ht]

/-- A failing answer makes the fetch end with an error, whatever is built from
a good one, as long as building needs the string members. -/
theorem fetchAndBuild_error_of_fails (parse : Str → Option Json) (get : Service) (path : Str)
    (failed : LoadError) (build : Json → Except LoadError Citation) (keys : List Str)
    (hbuild : ∀ info c, build info = .ok c → HasStringMembers info keys)
    (hf : AnswerFails parse get path keys) :
    ∃ err, fetchAndBuild parse get path failed build = .error err := by
  cases hr : fetchAndBuild parse get path failed build with
  | error err => exact ⟨err, rfl⟩
  | ok c =>
    obtain ⟨res, info, hg, hs, hp, hb⟩ := (fetchAndBuild_ok_iff _ _ _ _ _ _).1 hr
    rcases hf with hnone | ⟨res', hg', h⟩
    · rw [hg] at hnone; cases hnone
    · rw [hg] at hg'
      cases hg'
      rcases h with h | h | ⟨info', hp', hno⟩
      · exact absurd hs h
      · rw [hp] at h; cases h
      · rw [hp] at hp'
        cases hp'
        exact absurd (hbuild info c hb) hno

theorem bookFromInfo_needs_members (id : Str) (info : Json) (c : Citation)
    (h : bookFromInfo id info = .ok c) :
    HasStringMembers info [str "author", str "title", str "publisher", str "year"] := by
  obtain ⟨a, t, p, y, ha, ht, hp, hy, _⟩ := (bookFromInfo_ok_iff id info c).1 h
  intro k hk
  simp only [List.mem_cons, List.mem_singleton, List.not_mem_nil, or_false] at hk
  rcases hk with rfl | rfl | rfl | rfl
  · exact ⟨a, ha⟩
  · exact ⟨t, ht⟩
  · exact ⟨p, hp⟩
  · exact ⟨y, hy⟩

theorem webpageFromInfo_needs_members (id url : Str) (info : Json) (c : Citation)
    (h : webpageFromInfo id url info = .ok c) : HasStringMembers info [str "title"] := by
  obtain ⟨t, ht, _⟩ := (webpageFromInfo_ok_iff id url info c).1 h
  intro k hk
  rw [List.mem_singleton.1 hk]
  exact ⟨t, ht⟩

theorem articleFromEntry_ok (id : Str) (entry : Json) (c : Citation)
    (h : articleFromEntry id entry = .ok c) :
    ∃ t a j y v i, (entry.at (str "title")).getString = .ok t ∧
      (entry.at (str "author")).getString = .ok a ∧
      (entry.at (str "journal")).getString = .ok j ∧
      (entry.at (str "year")).getInt = .ok y ∧
      (entry.at (str "volume")).getInt = .ok v ∧
      (entry.at (str "issue")).getInt = .ok i ∧ c = .article id a t j y v i := by
  unfold articleFromEntry at h
  simp only [bind, Except.bind, pure, Except.pure] at h
  repeat' split at h
  all_goals (cases h; try exact ⟨_, _, _, _, _, _, ‹_›, ‹_›, ‹_›, ‹_›, ‹_›, ‹_›, rfl⟩)

theorem loadEntry_webpage_no_url (parse : Str → Option Json) (get : Service) (entry : Json)
    (id : Str) (h1 : entry.find (str "id") = some (.string id))
    (h2 : entry.find (str "type") = some (.string (str "webpage")))
    (h3 : ∀ url, entry.find (str "url") ≠ some (.string url)) :
    loadEntry parse get entry = ([], .error .webpageMissingUrl) := by
  have h : (!entry.contains (str "url") || !(entry.at (str "url")).isString) = true := by
    unfold Json.contains Json.at
    cases hf : entry.find (str "url") with
    | none => rfl
    | some v =>
      cases v with
      | string s => exact absurd hf (h3 s)
      | _ => rfl
  have hne : str "webpage" ≠ str "book" := by decide
  unfold loadEntry
  simp only [Json.contains, Json.at, h1, h2, Json.isString, Json.getString, hne] at h ⊢
  simp only [Option.isSome_some, Bool.not_true, Option.getD_some, Bool.or_self, Bool.false_eq_true,
    if_false, if_true]
  rw [if_pos h, if_neg hne]

theorem loadEntry_article (parse : Str → Option Json) (get : Service) (entry : Json)
    (id : Str) (h1 : entry.find (str "id") = some (.string id))
    (h2 : entry.find (str "type") = some (.string (str "article"))) :
    loadEntry parse get entry =
      if !entry.contains (str "title") || !entry.contains (str "author") ||
          !entry.contains (str "journal") || !entry.contains (str "year") ||
          !entry.contains (str "volume") || !entry.contains (str "issue") then
        ([], .error .incompleteArticle)
      else ([], articleFromEntry id entry) := by
  have hne1 : str "article" ≠ str "book" := by decide
  have hne2 : str "article" ≠ str "webpage" := by decide
  have hc1 : entry.contains (str "id") = true := by simp [Json.contains, h1]
  have hc2 : entry.contains (str "type") = true := by simp [Json.contains, h2]
  have ha1 : entry.at (str "id") = .string id := by simp [Json.at, h1]
  have ha2 : entry.at (str "type") = .string (str "article") := by simp [Json.at, h2]
  unfold loadEntry
  simp only [hc1, hc2, ha1, ha2, Json.isString, Json.getString, Bool.not_true, Bool.or_self,
    Bool.false_eq_true, if_false, hne1, hne2, if_true]

/-- An entry without a string id or without a string type ends with the
invalid-entry error. -/
theorem loadEntry_invalid (parse : Str → Option Json) (get : Service) (entry : Json)
    (h : (∀ id, entry.find (str "id") ≠ some (.string id)) ∨
      (∀ t, entry.find (str "type") ≠ some (.string t))) :
    loadEntry parse get entry = ([], .error .invalidEntry) := by
  have hcond : (!entry.contains (str "id") || !(entry.at (str "id")).isString ||
      !entry.contains (str "type") || !(entry.at (str "type")).isString) = true := by
    unfold Json.contains Json.at
    rcases h with h | h
    · cases hf : entry.find (str "id") with
      | none => simp
      | some v =>
        cases v with
        | string s => exact absurd hf (h s)
        | _ => simp [Json.isString]
    · cases hf : entry.find (str "type") with
      | none => simp
      | some v =>
        cases v with
        | string s => exact absurd hf (h s)
        | _ => simp [Json.isString]
  unfold loadEntry
  rw [if_pos hcond]

/-- A citation that an entry yields carries the string id of the entry. -/
theorem loadEntry_id (parse : Str → Option Json) (get : Service) (entry : Json)
    (c : Citation) (h : (loadEntry parse get entry).2 = .ok c) :
    entry.find (str "id") = some (.string c.id) := by
  by_cases hid : ∃ id, entry.find (str "id") = some (.string id)
  · by_cases hty : ∃ t, entry.find (str "type") = some (.string t)
    · obtain ⟨id, hid⟩ := hid
      obtain ⟨type, hty⟩ := hty
      suffices hc : c.id = id by rw [hc]; exact hid
      by_cases hb : type = str "book"
      · subst hb
        by_cases hi : ∃ isbn, entry.find (str "isbn") = some (.string isbn)
        · obtain ⟨isbn, hi⟩ := hi
          rw [loadEntry_book parse get entry id isbn hid hty hi] at h
          obtain ⟨_, info, _, _, _, hb⟩ := (fetchAndBuild_ok_iff _ _ _ _ _ _).1 h
          obtain ⟨_, _, _, _, _, _, _, _, rfl⟩ := (bookFromInfo_ok_iff id info c).1 hb
          rfl
        · rw [loadEntry_book_no_isbn parse get entry id hid hty
            (fun isbn hf => hi ⟨isbn, hf⟩)] at h
          cases h
      · by_cases hw : type = str "webpage"
        · subst hw
          by_cases hu : ∃ url, entry.find (str "url") = some (.string url)
          · obtain ⟨url, hu⟩ := hu
            rw [loadEntry_webpage parse get entry id url hid hty hu] at h
            obtain ⟨_, info, _, _, _, hb⟩ := (fetchAndBuild_ok_iff _ _ _ _ _ _).1 h
            obtain ⟨_, _, rfl⟩ := (webpageFromInfo_ok_iff id url info c).1 hb
            rfl
          · rw [loadEntry_webpage_no_url parse get entry id hid hty
              (fun url hf => hu ⟨url, hf⟩)] at h
            cases h
        · by_cases ha : type = str "article"
          · subst ha
            rw [loadEntry_article parse get entry id hid hty] at h
            split at h
            · cases h
            · obtain ⟨_, _, _, _, _, _, _, _, _, _, _, _, rfl⟩ :=
                articleFromEntry_ok id entry c h
              rfl
          · rw [loadEntry_unknown parse get entry id type hid hty hb hw ha] at h
            cases h
    · rw [loadEntry_invalid parse get entry (Or.inr (fun t ht => hty ⟨t, ht⟩))] at h
      cases h
  · rw [loadEntry_invalid parse get entry (Or.inl (fun id h' => hid ⟨id, h'⟩))] at h
    cases h

/-- A catalog is returned only by a document that passes the two checks, and
then it is what the loop returns. -/
theorem loadCitations_ok (parse : Str → Option Json) (get : Service) (data : Json)
    (cs : List Citation) (h : (loadCitations parse get data).2 = .ok cs) :
    ∃ entries, data.find (str "citations") = some (.array entries) ∧
      (loadLoop parse get entries [] []).2 = .ok cs := by
  unfold loadCitations at h
  split at h
  · cases h
  · split at h
    · cases h
    · rename_i _ hc
      simp only [Bool.or_eq_true, Bool.not_eq_true', not_or, Bool.not_eq_false] at hc
      obtain ⟨hc1, hc2⟩ := hc
      unfold Json.contains at hc1
      unfold Json.at at hc2 h
      cases hf : data.find (str "citations") with
      | none => rw [hf] at hc1; cases hc1
      | some v =>
        rw [hf] at hc2 h
        cases v with
        | array entries => exact ⟨entries, rfl, h⟩
        | _ => cases hc2

/-- C12: a Webpage citation formats to `[id] webpage: title. Available at url`,
and the url of a loaded Webpage is the url string of its catalog entry as given,
not its percent-encoding. -/
theorem webpage_format_raw_url :
    (∀ i t u : Str, (Citation.webpage i t u).format =
      str "[" ++ i ++ str "] webpage: " ++ t ++ str ". Available at " ++ u) ∧
    (∀ (parse : Str → Option Json) (get : Service) (entry : Json) (id url : Str)
      (c : Citation),
      entry.find (str "id") = some (.string id) →
      entry.find (str "type") = some (.string (str "webpage")) →
      entry.find (str "url") = some (.string url) →
      (loadEntry parse get entry).2 = .ok c →
      ∃ title, c = .webpage id title url ∧
        c.format = str "[" ++ id ++ str "] webpage: " ++ title ++ str ". Available at "
          ++ url) := by
  refine ⟨fun _ _ _ => rfl, ?_⟩
  intro parse get entry id url c h1 h2 h3 h
  rw [loadEntry_webpage parse get entry id url h1 h2 h3] at h
  obtain ⟨_, info, _, _, _, hb⟩ := (fetchAndBuild_ok_iff _ _ _ _ _ _).1 h
  obtain ⟨title, _, rfl⟩ := (webpageFromInfo_ok_iff id url info c).1 hb
  exact ⟨title, rfl, rfl⟩

theorem webpage_format_raw_url_witness :
    (loadEntry sampleParse sampleService sampleWebpageEntry).2 =
      .ok (.webpage (str "b") (str "Home") (str "http://b.example")) ∧
    ∃ title, Citation.webpage (str "b") (str "Home") (str "http://b.example") =
        .webpage (str "b") title (str "http://b.example") ∧
      (Citation.webpage (str "b") (str "Home") (str "http://b.example")).format =
        str "[" ++ str "b" ++ str "] webpage: " ++ title ++ str ". Available at "
          ++ str "http://b.example" :=
  ⟨by decide, webpage_format_raw_url.2 sampleParse sampleService sampleWebpageEntry
    (str "b") (str "http://b.example") _ rfl rfl rfl (by decide)⟩

/-- C13, as stated: a document of version 1 whose two entries carry the same id
x is loaded, and the catalog holds two citations of id x. -/
theorem loadCitations_keeps_duplicate_ids :
    loadCitations sampleParse sampleService
        (documentOf [sampleArticleEntry (str "x"), sampleArticleEntry (str "x")]) =
      ([], .ok [.article (str "x") (str "C") (str "U") (str "J") 1999 7 2,
        .article (str "x") (str "C") (str "U") (str "J") 1999 7 2]) ∧
    ¬ ([Citation.article (str "x") (str "C") (str "U") (str "J") 1999 7 2,
        Citation.article (str "x") (str "C") (str "U") (str "J") 1999 7 2].map
          Citation.id).Nodup := by
  refine ⟨by decide, by decide⟩

/-- C13, amended: a catalog that `loadCitations` returns holds one citation for
each entry of the citations array, in the order of the document, each with the
string id of its entry; ids that repeat in the document repeat in the catalog. -/
theorem loadCitations_ids_follow_entries (parse : Str → Option Json) (get : Service)
    (data : Json) (cs : List Citation) (h : (loadCitations parse get data).2 = .ok cs) :
    ∃ entries, data.find (str "citations") = some (.array entries) ∧
      entries.map (fun e => e.find (str "id")) = cs.map (fun c => some (.string c.id)) := by
  obtain ⟨entries, hfind, hloop⟩ := loadCitations_ok parse get data cs h
  obtain ⟨loaded, hcs, hall⟩ := loadLoop_ok parse get entries [] [] cs hloop
  refine ⟨entries, hfind, ?_⟩
  rw [hcs, List.nil_append]
  clear hcs hloop hfind h
  induction hall with
  | nil => rfl
  | cons hhead _ ih =>
    rw [List.map_cons, List.map_cons, ih, loadEntry_id parse get _ _ hhead]

theorem loadCitations_ids_follow_entries_witness :
    ∃ entries,
      (documentOf [sampleArticleEntry (str "x"), sampleArticleEntry (str "x")]).find
        (str "citations") = some (.array entries) ∧
      entries.map (fun e => e.find (str "id")) =
        [Citation.article (str "x") (str "C") (str "U") (str "J") 1999 7 2,
          Citation.article (str "x") (str "C") (str "U") (str "J") 1999 7 2].map
          (fun c => some (.string c.id)) :=
  loadCitations_ids_follow_entries sampleParse sampleService
    (documentOf [sampleArticleEntry (str "x"), sampleArticleEntry (str "x")]) _ (by decide)

/-- C14, as stated: a book entry that gives author, title, publisher and year
and has no isbn is not loaded but ends the load with the missing-ISBN error; and
when such an entry has an isbn as well, the lookup is issued and the Book carries
the fields of the answer, not those of the entry. -/
theorem book_direct_fields_not_loaded :
    loadCitations sampleParse sampleService (documentOf [sampleDirectBookEntry]) =
      ([], .error .bookMissingIsbn) ∧
    loadCitations sampleParse sampleService (documentOf [sampleDirectBookWithIsbn]) =
      ([str "/isbn/978-0"],
        .ok [.book (str "a") (str "A") (str "T") (str "P") (str "2020")]) ∧
    loadCitations sampleParse sampleService (documentOf [sampleDirectBookWithIsbn]) ≠
      ([], .ok [.book (str "a") (str "Z") (str "Y") (str "X") (str "1900")]) := by
  refine ⟨by decide, by decide, by decide⟩

/-- C14, amended: a book entry is loaded through the isbn lookup only. Without
a string isbn it ends with the missing-ISBN error and no request; with one, the
loader requests `/isbn/` followed by the encoded isbn, and a Book it yields
carries the id of the entry and the author, title, publisher and year strings of
the body of the answer of status 200. -/
theorem book_entry_always_fetched (parse : Str → Option Json) (get : Service)
    (entry : Json) (id : Str) (h1 : entry.find (str "id") = some (.string id))
    (h2 : entry.find (str "type") = some (.string (str "book"))) :
    ((∀ isbn, entry.find (str "isbn") ≠ some (.string isbn)) →
      loadEntry parse get entry = ([], .error .bookMissingIsbn)) ∧
    (∀ isbn, entry.find (str "isbn") = some (.string isbn) →
      (loadEntry parse get entry).1 = [str "/isbn/" ++ encodeUriComponent isbn] ∧
      ∀ c, (loadEntry parse get entry).2 = .ok c ↔
        ∃ res info a t p y,
          get (str "/isbn/" ++ encodeUriComponent isbn) = some res ∧ res.status = 200 ∧
          parse res.body = some info ∧
          info.find (str "author") = some (.string a) ∧
          info.find (str "title") = some (.string t) ∧
          info.find (str "publisher") = some (.string p) ∧
          info.find (str "year") = some (.string y) ∧ c = .book id a t p y) := by
  refine ⟨loadEntry_book_no_isbn parse get entry id h1 h2, fun isbn h3 => ?_⟩
  rw [loadEntry_book parse get entry id isbn h1 h2 h3]
  refine ⟨rfl, fun c => ?_⟩
  simp only [fetchAndBuild_ok_iff, bookFromInfo_ok_iff]
  constructor
  · rintro ⟨res, info, hg, hs, hp, a, t, p, y, h⟩
    exact ⟨res, info, a, t, p, y, hg, hs, hp, h⟩
  · rintro ⟨res, info, a, t, p, y, hg, hs, hp, h⟩
    exact ⟨res, info, hg, hs, hp, a, t, p, y, h⟩

theorem book_entry_always_fetched_witness :
    (loadEntry sampleParse sampleService sampleDirectBookWithIsbn).1 =
      [str "/isbn/" ++ encodeUriComponent (str "978-0")] ∧
    ((loadEntry sampleParse sampleService sampleDirectBookWithIsbn).2 =
        .ok (.book (str "a") (str "A") (str "T") (str "P") (str "2020")) ↔
      ∃ res info a t p y,
        sampleService (str "/isbn/" ++ encodeUriComponent (str "978-0")) = some res ∧
        res.status = 200 ∧ sampleParse res.body = some info ∧
        info.find (str "author") = some (.string a) ∧
        info.find (str "title") = some (.string t) ∧
        info.find (str "publisher") = some (.string p) ∧
        info.find (str "year") = some (.string y) ∧
        Citation.book (str "a") (str "A") (str "T") (str "P") (str "2020") =
          .book (str "a") a t p y) :=
  ⟨((book_entry_always_fetched sampleParse sampleService sampleDirectBookWithIsbn (str "a")
      rfl rfl).2 (str "978-0") rfl).1,
    ((book_entry_always_fetched sampleParse sampleService sampleDirectBookWithIsbn (str "a")
      rfl rfl).2 (str "978-0") rfl).2 _⟩

theorem equalsInt_one_iff (v : Json) : v.equalsInt 1 = true ↔ IsNumberOne v := by
  unfold IsNumberOne
  cases v <;> simp [Json.equalsInt]

/-- C15: a document without a "version" member, or whose "version" is any
value other than the number 1, makes `loadCitations` end with the version error,
whatever else the document holds; no request is issued and no catalog returned. -/
theorem loadCitations_version_error (parse : Str → Option Json) (get : Service)
    (data : Json)
    (h : data.find (str "version") = none ∨
      ∃ v, data.find (str "version") = some v ∧ ¬ IsNumberOne v) :
    loadCitations parse get data = ([], .error .invalidVersion) := by
  have hcond : (!data.contains (str "version") ||
      !(data.at (str "version")).equalsInt 1) = true := by
    unfold Json.contains Json.at
    rcases h with h | ⟨v, hv, hne⟩
    · rw [h]; rfl
    · rw [hv]
      have : v.equalsInt 1 = false := by
        cases hb : v.equalsInt 1 with
        | false => rfl
        | true => exact absurd ((equalsInt_one_iff v).1 hb) hne
      simp [this]
  unfold loadCitations
  rw [if_pos hcond]

theorem loadCitations_version_error_witness :
    ((Json.object [(str "version", .string (str "1")),
        (str "citations", .array [sampleArticleEntry (str "x")])]).find (str "version") = none ∨
      ∃ v, (Json.object [(str "version", .string (str "1")),
        (str "citations", .array [sampleArticleEntry (str "x")])]).find (str "version")
          = some v ∧ ¬ IsNumberOne v) ∧
    loadCitations sampleParse sampleService
      (Json.object [(str "version", .string (str "1")),
        (str "citations", .array [sampleArticleEntry (str "x")])]) =
      ([], .error .invalidVersion) :=
  have h : (Json.object [(str "version", .string (str "1")),
        (str "citations", .array [sampleArticleEntry (str "x")])]).find (str "version") = none ∨
      ∃ v, (Json.object [(str "version", .string (str "1")),
        (str "citations", .array [sampleArticleEntry (str "x")])]).find (str "version")
          = some v ∧ ¬ IsNumberOne v :=
    Or.inr ⟨.string (str "1"), rfl, by
      intro h
      rcases h with h | h <;> cases h⟩
  ⟨h, loadCitations_version_error sampleParse sampleService _ h⟩

/-- C16: in a document of version 1, an entry with a string id and a string
type other than "book", "webpage" and "article" keeps the load from returning a
catalog, whatever else the entry carries; when the entries before it all load,
the load ends with the unknown-type error naming the type, and the entry itself
issues no request. -/
theorem loadCitations_unknown_type (parse : Str → Option Json) (get : Service)
    (data v e : Json) (pre post : List Json) (id type : Str)
    (hv : data.find (str "version") = some v) (hv1 : IsNumberOne v)
    (hc : data.find (str "citations") = some (.array (pre ++ e :: post)))
    (h1 : e.find (str "id") = some (.string id))
    (h2 : e.find (str "type") = some (.string type))
    (hb : type ≠ str "book") (hw : type ≠ str "webpage") (ha : type ≠ str "article") :
    (∀ cs, (loadCitations parse get data).2 ≠ .ok cs) ∧
    ((∀ e', e' ∈ pre → ∃ c, (loadEntry parse get e').2 = .ok c) →
      loadCitations parse get data =
        ((pre.map (fun e' => (loadEntry parse get e').1)).flatten,
          .error (.unknownType type))) := by
  have hload := loadCitations_eq_loadLoop parse get data v _ hv
    ((equalsInt_one_iff v).2 hv1) hc
  have he := loadEntry_unknown parse get e id type h1 h2 hb hw ha
  have herr : (loadEntry parse get e).2 = .error (.unknownType type) := by rw [he]
  rw [hload]
  refine ⟨fun cs => loadLoop_not_ok parse get _ [] [] e _ (by simp) herr cs, fun hpre => ?_⟩
  rw [loadLoop_stops_at parse get e post _ herr pre [] [] hpre, he]
  simp

theorem loadCitations_unknown_type_witness :
    (∀ cs, (loadCitations sampleParse sampleService
      (documentOf ([sampleBookEntry] ++ sampleMysteryEntry :: [sampleWebpageEntry]))).2
        ≠ .ok cs) ∧
    ((∀ e', e' ∈ [sampleBookEntry] → ∃ c, (loadEntry sampleParse sampleService e').2 = .ok c) →
      loadCitations sampleParse sampleService
          (documentOf ([sampleBookEntry] ++ sampleMysteryEntry :: [sampleWebpageEntry])) =
        (([sampleBookEntry].map (fun e' => (loadEntry sampleParse sampleService e').1)).flatten,
          .error (.unknownType (str "mystery")))) :=
  loadCitations_unknown_type sampleParse sampleService
    (documentOf ([sampleBookEntry] ++ sampleMysteryEntry :: [sampleWebpageEntry]))
    (.int 1) sampleMysteryEntry [sampleBookEntry] [sampleWebpageEntry] (str "m")
    (str "mystery") rfl (Or.inl rfl) rfl rfl rfl (by decide) (by decide) (by decide)

/-- C17: an article entry whose year is the boolean `true` is loaded, as an
Article of year 1, instead of ending the load; and the conversion to `int`
accepts every boolean and every number with a fraction. -/
theorem article_boolean_year_loaded :
    loadCitations sampleParse sampleService (documentOf [sampleBoolYearEntry]) =
      ([], .ok [.article (str "x") (str "C") (str "U") (str "J") 1 7 2]) ∧
    (∀ b : Bool, ∃ n, (Json.bool b).getInt = .ok n) ∧
    (∀ q : ℚ, ∃ n, (Json.float q).getInt = .ok n) :=
  ⟨by decide, fun _ => ⟨_, rfl⟩, fun _ => ⟨_, rfl⟩⟩

/-- A document that holds an entry ending with an error returns no catalog. -/
theorem loadCitations_not_ok_of_entry (parse : Str → Option Json) (get : Service)
    (data e : Json) (entries : List Json) (err : LoadError)
    (hc : data.find (str "citations") = some (.array entries)) (he : e ∈ entries)
    (herr : (loadEntry parse get e).2 = .error err) (cs : List Citation) :
    (loadCitations parse get data).2 ≠ .ok cs := by
  intro h
  obtain ⟨entries', hc', hloop⟩ := loadCitations_ok parse get data cs h
  rw [hc] at hc'
  cases hc'
  exact loadLoop_not_ok parse get entries [] [] e err he herr cs hloop

/-- C18: a book entry without an isbn, whether or not it gives author, title,
publisher and year, ends with an error and issues no request; a document that
holds it returns no catalog, and when the document has version 1 and the entries
before it load, the requests issued are those of the entries before it. -/
theorem book_without_isbn_aborts (parse : Str → Option Json) (get : Service)
    (data e : Json) (pre post : List Json)
    (hc : data.find (str "citations") = some (.array (pre ++ e :: post)))
    (h2 : e.find (str "type") = some (.string (str "book")))
    (h3 : e.find (str "isbn") = none) :
    (loadEntry parse get e = ([], .error .bookMissingIsbn) ∨
      loadEntry parse get e = ([], .error .invalidEntry)) ∧
    (∀ cs, (loadCitations parse get data).2 ≠ .ok cs) ∧
    (∀ v, data.find (str "version") = some v → IsNumberOne v →
      (∀ e', e' ∈ pre → ∃ c, (loadEntry parse get e').2 = .ok c) →
      (loadCitations parse get data).1 =
          (pre.map (fun e' => (loadEntry parse get e').1)).flatten ∧
        ((loadCitations parse get data).2 = .error .bookMissingIsbn ∨
          (loadCitations parse get data).2 = .error .invalidEntry)) := by
  have hentry : loadEntry parse get e = ([], .error .bookMissingIsbn) ∨
      loadEntry parse get e = ([], .error .invalidEntry) := by
    by_cases hid : ∃ id, e.find (str "id") = some (.string id)
    · obtain ⟨id, hid⟩ := hid
      exact Or.inl (loadEntry_book_no_isbn parse get e id hid h2
        (fun isbn hf => by rw [h3] at hf; cases hf))
    · exact Or.inr (loadEntry_invalid parse get e (Or.inl (fun id h' => hid ⟨id, h'⟩)))
  have herr : ∃ err, loadEntry parse get e = ([], .error err) ∧
      (err = .bookMissingIsbn ∨ err = .invalidEntry) := by
    rcases hentry with h | h
    · exact ⟨_, h, Or.inl rfl⟩
    · exact ⟨_, h, Or.inr rfl⟩
  obtain ⟨err, he, hkind⟩ := herr
  have he2 : (loadEntry parse get e).2 = .error err := by rw [he]
  refine ⟨hentry, fun cs => loadCitations_not_ok_of_entry parse get data e _ err hc
    (by simp) he2 cs, fun v hv hv1 hpre => ?_⟩
  rw [loadCitations_eq_loadLoop parse get data v _ hv ((equalsInt_one_iff v).2 hv1) hc,
    loadLoop_stops_at parse get e post err he2 pre [] [] hpre, he]
  refine ⟨by simp, ?_⟩
  rcases hkind with rfl | rfl
  · exact Or.inl rfl
  · exact Or.inr rfl

theorem book_without_isbn_aborts_witness :
    (loadEntry sampleParse sampleService sampleDirectBookEntry = ([], .error .bookMissingIsbn) ∨
      loadEntry sampleParse sampleService sampleDirectBookEntry = ([], .error .invalidEntry)) ∧
    (∀ cs, (loadCitations sampleParse sampleService
      (documentOf ([sampleBookEntry] ++ sampleDirectBookEntry :: []))).2 ≠ .ok cs) :=
  ⟨(book_without_isbn_aborts sampleParse sampleService
      (documentOf ([sampleBookEntry] ++ sampleDirectBookEntry :: []))
      sampleDirectBookEntry [sampleBookEntry] [] rfl rfl rfl).1,
    (book_without_isbn_aborts sampleParse sampleService
      (documentOf ([sampleBookEntry] ++ sampleDirectBookEntry :: []))
      sampleDirectBookEntry [sampleBookEntry] [] rfl rfl rfl).2.1⟩

/-- C19: with the service as an oracle from request path to status and body, an
entry with a string id requests, as a book with a string isbn, exactly `/isbn/`
followed by the encoded isbn, and as a webpage with a string url exactly
`/title/` followed by the encoded url; when the answer is absent, has a status other than 200, or has a
body that is not JSON with the expected string members, the entry ends with an
error and every document that holds it returns no catalog. -/
theorem lookup_path_and_failure (parse : Str → Option Json) (get : Service)
    (entry : Json) (id x : Str) (h1 : entry.find (str "id") = some (.string id)) :
    (entry.find (str "type") = some (.string (str "book")) →
      entry.find (str "isbn") = some (.string x) →
      (loadEntry parse get entry).1 = [str "/isbn/" ++ encodeUriComponent x] ∧
      (AnswerFails parse get (str "/isbn/" ++ encodeUriComponent x)
          [str "author", str "title", str "publisher", str "year"] →
        (∃ err, (loadEntry parse get entry).2 = .error err) ∧
        ∀ data entries, data.find (str "citations") = some (.array entries) →
          entry ∈ entries → ∀ cs, (loadCitations parse get data).2 ≠ .ok cs)) ∧
    (entry.find (str "type") = some (.string (str "webpage")) →
      entry.find (str "url") = some (.string x) →
      (loadEntry parse get entry).1 = [str "/title/" ++ encodeUriComponent x] ∧
      (AnswerFails parse get (str "/title/" ++ encodeUriComponent x) [str "title"] →
        (∃ err, (loadEntry parse get entry).2 = .error err) ∧
        ∀ data entries, data.find (str "citations") = some (.array entries) →
          entry ∈ entries → ∀ cs, (loadCitations parse get data).2 ≠ .ok cs)) := by
  constructor
  · intro h2 h3
    have he := loadEntry_book parse get entry id x h1 h2 h3
    refine ⟨by rw [he], fun hf => ?_⟩
    obtain ⟨err, herr⟩ := fetchAndBuild_error_of_fails parse get _ (.bookFetchFailed x)
      (bookFromInfo id) _ (bookFromInfo_needs_members id) hf
    have he2 : (loadEntry parse get entry).2 = .error err := by rw [he]; exact herr
    exact ⟨⟨err, he2⟩, fun data entries hc hm cs =>
      loadCitations_not_ok_of_entry parse get data entry entries err hc hm he2 cs⟩
  · intro h2 h3
    have he := loadEntry_webpage parse get entry id x h1 h2 h3
    refine ⟨by rw [he], fun hf => ?_⟩
    obtain ⟨err, herr⟩ := fetchAndBuild_error_of_fails parse get _ (.webpageFetchFailed x)
      (webpageFromInfo id x) _ (webpageFromInfo_needs_members id x) hf
    have he2 : (loadEntry parse get entry).2 = .error err := by rw [he]; exact herr
    exact ⟨⟨err, he2⟩, fun data entries hc hm cs =>
      loadCitations_not_ok_of_entry parse get data entry entries err hc hm he2 cs⟩

theorem lookup_path_and_failure_witness :
    (loadEntry sampleParse sampleService sampleUnknownBookEntry).1 =
      [str "/isbn/" ++ encodeUriComponent (str "404")] ∧
    ∃ err, (loadEntry sampleParse sampleService sampleUnknownBookEntry).2 = .error err :=
  have h := (lookup_path_and_failure sampleParse sampleService sampleUnknownBookEntry
    (str "n") (str "404") rfl).1 rfl rfl
  ⟨h.1, (h.2 (Or.inr ⟨⟨404, []⟩, rfl, Or.inl (by decide)⟩)).1⟩

end Docman
